import Mathlib

/-!
Verification of the PromQL label-flow analyzer (`internal/parser/utils/source.go`)
and the alerts-comparison check (`internal/checks/alerts_comparison.go`) of the
pint rule linter, against its natural-language specification.

The Go code is shallowly embedded below.  Floating-point sample values
(`float64` in Go) are modelled as rationals: every operation the claims under
study exercise (the six comparison operators, addition, subtraction,
multiplication) agrees with IEEE-754 on the values reachable in those claims;
`math.Mod` and `math.Pow` are given rational approximations and are not
exercised by any claim.  Go byte-indexed string slicing is modelled with
character-indexed slicing; the resulting strings feed only diagnostic
`Fragment` fields that no claim inspects.
-/

/-- Position range of a node inside the original expression string
(promParser `posrange.PositionRange`). -/
structure PosRange where
  startPos : Nat
  endPos : Nat
deriving DecidableEq, Repr

/-- Label matcher type (`labels.MatchType`). -/
inductive MatchType where
  | MatchEqual
  | MatchNotEqual
  | MatchRegexp
  | MatchNotRegexp
deriving DecidableEq, Repr

/-- One label matcher `name <op> "value"` (`labels.Matcher`).  The Go field
`Type` is called `mtype` here because `Type` is reserved in Lean. -/
structure LabelMatcher where
  mtype : MatchType
  name : String
  value : String
deriving DecidableEq, Repr

/-- The metric-name label `__name__` (`labels.MetricName`). -/
def metricName : String := "__name__"

/-- A PromQL vector selector (`promParser.VectorSelector`): metric name plus
label matchers.  The parser also stores the `__name__` matcher inside
`labelMatchers` when a metric name is present. -/
structure VectorSelector where
  name : String
  labelMatchers : List LabelMatcher
  posRange : PosRange
deriving DecidableEq, Repr

/-- Vector-matching cardinality (`promParser.VectorMatchCardinality`). -/
inductive VectorCard where
  | CardOneToOne
  | CardManyToOne
  | CardOneToMany
  | CardManyToMany
deriving DecidableEq, Repr

/-- The `String()` method of `promParser.VectorMatchCardinality`. -/
def cardString : VectorCard → String
  | .CardOneToOne => "one-to-one"
  | .CardManyToOne => "many-to-one"
  | .CardOneToMany => "one-to-many"
  | .CardManyToMany => "many-to-many"

/-- Vector matching clause of a binary expression
(`promParser.VectorMatching`).  The Go fields `On` and `Include` are called
`isOn` and `includeLabels` because `on` and `include` are Lean keywords. -/
structure VectorMatching where
  card : VectorCard
  matchingLabels : List String
  isOn : Bool
  includeLabels : List String
deriving DecidableEq, Repr

/-- PromQL lexer item types, restricted to the operators the analyzer
inspects (`promParser.ItemType`). -/
inductive ItemType where
  | EQLC
  | NEQ
  | LTE
  | LSS
  | GTE
  | GTR
  | ADD
  | SUB
  | MUL
  | DIV
  | MOD
  | POW
  | ATAN2
  | LAND
  | LOR
  | LUNLESS
  | SUM
  | MIN
  | MAX
  | AVG
  | GROUP
  | STDDEV
  | STDVAR
  | COUNT
  | COUNT_VALUES
  | QUANTILE
  | TOPK
  | BOTTOMK
deriving DecidableEq, Repr

/-- The `IsComparisonOperator` method of `promParser.ItemType`. -/
def IsComparisonOperator : ItemType → Bool
  | .EQLC | .NEQ | .LTE | .LSS | .GTE | .GTR => true
  | _ => false

/-- Prometheus value types (`promParser.ValueType`), which Go declares as a
string type; the zero value `""` of a fresh `Source.Returns` field is a
string distinct from all five named types, exactly as in Go. -/
abbrev ValueType := String

def ValueTypeNone : ValueType := "none"

def ValueTypeScalar : ValueType := "scalar"

def ValueTypeVector : ValueType := "vector"

def ValueTypeMatrix : ValueType := "matrix"

def ValueTypeString : ValueType := "string"

/-- The part of `promParser.Function` the analyzer reads: `Name` and
`ArgTypes`. -/
structure PromFunction where
  name : String
  argTypes : List ValueType
deriving DecidableEq, Repr

/-- The PromQL AST (`promParser.Node`), with exactly the node kinds
`walkNode` dispatches on.  Matrix selectors and subqueries keep only the
fields the analyzer reads (their range and step durations are never
inspected). -/
inductive Node where
  | AggregateExpr (op : ItemType) (e : Node) (param : Option Node)
      (grouping : List String) (without : Bool) (posRange : PosRange)
  | BinaryExpr (op : ItemType) (lhs rhs : Node)
      (vectorMatching : Option VectorMatching) (returnBool : Bool)
  | Call (func : PromFunction) (args : List Node) (posRange : PosRange)
  | MatrixSelector (vectorSelector : Node)
  | SubqueryExpr (e : Node)
  | NumberLiteral (val : ℚ) (posRange : PosRange)
  | ParenExpr (e : Node)
  | StringLiteral (val : String) (posRange : PosRange)
  | UnaryExpr (e : Node)
  | StepInvariantExpr (e : Node)
  | VectorSelector (vs : VectorSelector)

/-- Merged position range of a node, mirroring the `PositionRange()` methods
of the promParser node types (for wrapper nodes the range of the inner
expression is used; the tiny differences — enclosing parentheses and range
brackets — only affect diagnostic fragments that no claim inspects). -/
def Node.positionRange : Node → PosRange
  | .AggregateExpr _ _ _ _ _ pos => pos
  | .BinaryExpr _ lhs rhs _ _ => ⟨lhs.positionRange.startPos, rhs.positionRange.endPos⟩
  | .Call _ _ pos => pos
  | .MatrixSelector v => v.positionRange
  | .SubqueryExpr e => e.positionRange
  | .NumberLiteral _ pos => pos
  | .ParenExpr e => e.positionRange
  | .StringLiteral _ pos => pos
  | .UnaryExpr e => e.positionRange
  | .StepInvariantExpr e => e.positionRange
  | .VectorSelector vs => vs.posRange

/-- Discriminant for `Source` (Go `SourceType`). -/
inductive SourceType where
  | UnknownSource
  | NumberSource
  | StringSource
  | SelectorSource
  | FuncSource
  | AggregateSource
deriving DecidableEq, Repr

/-- Reason why a label was excluded (Go `ExcludedLabel`). -/
structure ExcludedLabel where
  reason : String
  fragment : String
deriving DecidableEq, Repr

/-- The originating function call stored on a `Source` (Go keeps a
`*promParser.Call` pointer; we keep the call node's components). -/
structure CallInfo where
  func : PromFunction
  args : List Node
  posRange : PosRange

/-- The analyzer's output record (Go `Source`).  The Go field `Type` is
called `SrcType` here because `Type` is reserved in Lean.  The Go map
`ExcludeReason` is modelled as an association list; `setInMap` replaces an
existing binding.  All defaults are the Go zero values. -/
structure Source where
  Selectors : List VectorSelector := []
  Call : Option CallInfo := none
  ExcludeReason : List (String × ExcludedLabel) := []
  Operation : String := ""
  Returns : ValueType := ""
  ReturnedNumbers : List ℚ := []
  IncludedLabels : List String := []
  ExcludedLabels : List String := []
  GuaranteedLabels : List String := []
  SrcType : SourceType := .UnknownSource
  FixedLabels : Bool := false
  IsDead : Bool := false
  AlwaysReturns : Bool := false

instance : Inhabited Source := ⟨{}⟩

/-- Go `removeFromSlice` for a single value `v`: `slices.Index` finds the
first occurrence, `slices.Delete` removes it; when the slice has exactly one
element Go returns `nil` directly. -/
def removeOne (sl : List String) (v : String) : List String :=
  match sl.findIdx? (fun x => x == v) with
  | none => sl
  | some idx => if sl.length == 1 then [] else sl.eraseIdx idx

/-- Go `removeFromSlice(sl, s...)`: the loop `for _, v := range s` applies
`removeOne` for each value in turn. -/
def removeFromSlice (sl : List String) (vs : List String) : List String :=
  vs.foldl removeOne sl

/-- Go `appendToSlice(dst, values...)`: append each value not already
present. -/
def appendToSlice (dst : List String) : List String → List String
  | [] => dst
  | v :: vs => appendToSlice (if dst.contains v then dst else dst ++ [v]) vs

/-- Go `setInMap(dst, key, val)`: map insertion, replacing any existing
binding for `key` (the association list keeps at most one binding per key). -/
def setInMap (dst : List (String × ExcludedLabel)) (key : String) (val : ExcludedLabel) :
    List (String × ExcludedLabel) :=
  dst.filter (fun p => p.1 != key) ++ [(key, val)]

/-- Go `delete(m, key)` on the `ExcludeReason` map. -/
def delInMap (dst : List (String × ExcludedLabel)) (key : String) :
    List (String × ExcludedLabel) :=
  dst.filter (fun p => p.1 != key)

/-- Go `for _, name := range names { delete(m, name) }`. -/
def delKeys (dst : List (String × ExcludedLabel)) (keys : List String) :
    List (String × ExcludedLabel) :=
  keys.foldl delInMap dst

/-- Go `getQueryFragment`: slice the expression text by the position range. -/
def getQueryFragment (expr : String) (pos : PosRange) : String :=
  (expr.drop pos.startPos).take (pos.endPos - pos.startPos)

/-- Go `guaranteedLabelsMatches`: matcher types whose labels are guaranteed
present. -/
def guaranteedLabelsMatches : List MatchType := [.MatchEqual, .MatchRegexp]

/-- The names of one selector's matchers whose type is in `mtypes`, skipping
`__name__` — the body of the inner loop of Go `labelsFromSelectors`, with its
two `continue` branches written as a filter. -/
def selectorMatchNames (mtypes : List MatchType) (sel : VectorSelector) : List String :=
  (sel.labelMatchers.filter
    (fun lm => lm.name != metricName && mtypes.contains lm.mtype)).map (fun lm => lm.name)

/-- Go `labelsFromSelectors`: first collect (deduplicated, in order of first
appearance) every label name used by a matcher of one of the given types,
counting one per matcher; then drop every name whose total matcher count
differs from the number of selectors.  Go iterates the count map in random
order; since each distinct name is removed at most once the removals commute,
so we iterate the (deduplicated) name list itself. -/
def labelsFromSelectors (mtypes : List MatchType) (selectors : List VectorSelector) :
    List String :=
  let stream := selectors.flatMap (selectorMatchNames mtypes)
  let names := appendToSlice [] stream
  names.foldl
    (fun acc name => if stream.count name != selectors.length then removeFromSlice acc [name] else acc)
    names

/-- Truncation toward zero, the rounding used by Go `math.Mod`. -/
def truncQ (q : ℚ) : ℤ := if 0 ≤ q then ⌊q⌋ else ⌈q⌉

/-- Rational model of Go `math.Mod` (exact for `rv ≠ 0`; for `rv = 0` Go
produces NaN, which has no rational counterpart — no claim exercises it). -/
def qmod (lv rv : ℚ) : ℚ := lv - rv * (truncQ (lv / rv) : ℚ)

/-- Rational model of Go `math.Pow` (exact for integer exponents and
`lv ≠ 0`; other cases are irrational or NaN — no claim exercises them). -/
def qpow (lv rv : ℚ) : ℚ := if rv.den = 1 then lv ^ rv.num else 0

/-- Go `calculateStaticReturn(lv, rv, op, isDead)`: constant folding for a
binary operator over two constants; for comparison operators a failed
predicate keeps the lhs value and marks the source dead. -/
def calculateStaticReturn (lv rv : ℚ) (op : ItemType) (isDead : Bool) : ℚ × Bool :=
  match op with
  | .EQLC => if lv ≠ rv then (lv, true) else (lv, isDead)
  | .NEQ => if lv = rv then (lv, true) else (lv, isDead)
  | .LTE => if lv > rv then (lv, true) else (lv, isDead)
  | .LSS => if lv ≥ rv then (lv, true) else (lv, isDead)
  | .GTE => if lv < rv then (lv, true) else (lv, isDead)
  | .GTR => if lv ≤ rv then (lv, true) else (lv, isDead)
  | .ADD => (lv + rv, isDead)
  | .SUB => (lv - rv, isDead)
  | .MUL => (lv * rv, isDead)
  | .DIV => (lv / rv, isDead)
  | .MOD => (qmod lv rv, isDead)
  | .POW => (qpow lv rv, isDead)
  | _ => (lv, isDead)

/-- Model of the Go loop in `parseAggregation` that drops guaranteed labels
not listed in `by(...)`:

    for _, name := range s.GuaranteedLabels {
        if !slices.Contains(n.Grouping, name) {
            s.GuaranteedLabels = removeFromSlice(s.GuaranteedLabels, name)
        }
    }

The range clause captures the original slice header (length `g.length`) but
keeps reading elements through the shared backing array, which
`slices.Delete` inside `removeFromSlice` mutates in place, shifting the
remaining elements left and zeroing the vacated tail cell (Go ≥ 1.22).
Consequently iteration `i` reads the element at index `i` of the CURRENT
slice (`""` once `i` is past its end), not the element originally there.
This loop therefore fails to drop some labels; see the `C3` theorems. -/
def filterGuaranteed (grouping : List String) (g : List String) : List String :=
  (List.range g.length).foldl
    (fun cur i =>
      let name := cur.getD i ""
      if grouping.contains name then cur else removeFromSlice cur [name])
    g

/-- Reason text recorded for each label of a `without(...)` clause. -/
def withoutReason (expr : String) (grouping : List String) (pos : PosRange) : ExcludedLabel :=
  { reason := "Query is using aggregation with `without(" ++ String.intercalate ", " grouping ++
      ")`, all labels included inside `without(...)` will be removed from the results.",
    fragment := getQueryFragment expr pos }

/-- Reason text recorded under the empty key for a bare aggregation. -/
def bareAggReason (expr : String) (pos : PosRange) : ExcludedLabel :=
  { reason := "Query is using aggregation that removes all labels.",
    fragment := getQueryFragment expr pos }

/-- Reason text recorded under the empty key for a `by(...)` clause. -/
def byReason (expr : String) (grouping : List String) (pos : PosRange) : ExcludedLabel :=
  { reason := "Query is using aggregation with `by(" ++ String.intercalate ", " grouping ++
      ")`, only labels included inside `by(...)` will be present on the results.",
    fragment := getQueryFragment expr pos }

/-- Go `parseAggregation`, applied to the already-computed sources of the
inner expression (the Go loop `for _, s = range walkNode(expr, n.Expr)` is
the `map`). -/
def parseAggregationFrom (expr : String) (grouping : List String) (without : Bool)
    (pos : PosRange) (inner : List Source) : List Source :=
  inner.map (fun s0 =>
    let s :=
      if without then
        { s0 with
          ExcludedLabels := appendToSlice s0.ExcludedLabels grouping,
          IncludedLabels := removeFromSlice s0.IncludedLabels grouping,
          GuaranteedLabels := removeFromSlice s0.GuaranteedLabels grouping,
          ExcludeReason :=
            grouping.foldl (fun m name => setInMap m name (withoutReason expr grouping pos))
              s0.ExcludeReason }
      else if grouping.isEmpty then
        { s0 with
          IncludedLabels := [],
          GuaranteedLabels := [],
          ExcludeReason := setInMap s0.ExcludeReason "" (bareAggReason expr pos),
          FixedLabels := true }
      else
        let s1 :=
          if !s0.FixedLabels then
            { s0 with
              IncludedLabels := appendToSlice s0.IncludedLabels grouping,
              ExcludedLabels := removeFromSlice s0.ExcludedLabels grouping,
              ExcludeReason := setInMap s0.ExcludeReason "" (byReason expr grouping pos) }
          else s0
        { s1 with
          GuaranteedLabels := filterGuaranteed grouping s1.GuaranteedLabels,
          FixedLabels := true }
    { s with SrcType := .AggregateSource, Returns := ValueTypeVector, Call := none })

/-- The string value of an aggregation parameter.  Go type-asserts
`n.Param.(*promParser.StringLiteral)` and would panic on anything else; the
parser guarantees a string literal for `count_values`. -/
def paramStringVal : Option Node → String
  | some (.StringLiteral v _) => v
  | _ => ""

/-- Go `walkAggregation`, applied to the already-computed sources of the
inner expression.  Each aggregation operator tags the sources produced by
`parseAggregation`; `count_values` additionally forces its parameter label;
`topk` and `bottomk` pass the inner sources through untouched except for
`Type` and `Operation`. -/
def walkAggregationFrom (expr : String) (op : ItemType) (param : Option Node)
    (grouping : List String) (without : Bool) (pos : PosRange) (inner : List Source) :
    List Source :=
  match op with
  | .SUM => (parseAggregationFrom expr grouping without pos inner).map
      (fun s => { s with Operation := "sum" })
  | .MIN => (parseAggregationFrom expr grouping without pos inner).map
      (fun s => { s with Operation := "min" })
  | .MAX => (parseAggregationFrom expr grouping without pos inner).map
      (fun s => { s with Operation := "max" })
  | .AVG => (parseAggregationFrom expr grouping without pos inner).map
      (fun s => { s with Operation := "avg" })
  | .GROUP => (parseAggregationFrom expr grouping without pos inner).map
      (fun s => { s with Operation := "group" })
  | .STDDEV => (parseAggregationFrom expr grouping without pos inner).map
      (fun s => { s with Operation := "stddev" })
  | .STDVAR => (parseAggregationFrom expr grouping without pos inner).map
      (fun s => { s with Operation := "stdvar" })
  | .COUNT => (parseAggregationFrom expr grouping without pos inner).map
      (fun s => { s with Operation := "count" })
  | .COUNT_VALUES => (parseAggregationFrom expr grouping without pos inner).map
      (fun s =>
        let pv := paramStringVal param
        { s with
          Operation := "count_values",
          GuaranteedLabels := appendToSlice s.GuaranteedLabels [pv],
          IncludedLabels := appendToSlice s.IncludedLabels [pv],
          ExcludedLabels := removeFromSlice s.ExcludedLabels [pv],
          ExcludeReason := delInMap s.ExcludeReason pv })
  | .QUANTILE => (parseAggregationFrom expr grouping without pos inner).map
      (fun s => { s with Operation := "quantile" })
  | .TOPK => inner.map (fun s => { s with SrcType := .AggregateSource, Operation := "topk" })
  | .BOTTOMK => inner.map (fun s => { s with SrcType := .AggregateSource, Operation := "bottomk" })
  | _ => []

/-- Function names of the Go `parseCall` case arms that share the
label-preserving body (`Returns = vector`, guaranteed labels from the
selectors' positive matchers): the arms for `abs`/`sgn`/trig, for
`ceil`/`floor`/`round`, for `changes`/`resets`, for `clamp*`, for
`*_over_time`, for `deg`/`rad`/logs/`sqrt`/`exp`, for rates and deltas, for
`histogram_*`, for `holt_winters`/`predict_linear` and for `timestamp` all
have this exact body, so they are merged into one membership test. -/
def labelPreservingNames : List String :=
  ["abs", "sgn", "acos", "acosh", "asin", "asinh", "atan", "atanh", "cos", "cosh",
   "sin", "sinh", "tan", "tanh",
   "ceil", "floor", "round",
   "changes", "resets",
   "clamp", "clamp_max", "clamp_min",
   "avg_over_time", "count_over_time", "last_over_time", "max_over_time", "min_over_time",
   "present_over_time", "quantile_over_time", "stddev_over_time", "stdvar_over_time",
   "sum_over_time",
   "deg", "rad", "ln", "log10", "log2", "sqrt", "exp",
   "delta", "idelta", "increase", "deriv", "irate", "rate",
   "histogram_avg", "histogram_count", "histogram_sum", "histogram_stddev",
   "histogram_stdvar", "histogram_fraction", "histogram_quantile",
   "holt_winters", "predict_linear",
   "timestamp"]

/-- Calendar functions: no labels when called with no arguments, otherwise
label-preserving. -/
def calendarNames : List String :=
  ["days_in_month", "day_of_month", "day_of_week", "day_of_year", "hour", "minute",
   "month", "year"]

/-- Functions returning a bare scalar (`pi`, `scalar`, `time` have identical
Go case bodies). -/
def scalarFuncNames : List String := ["pi", "scalar", "time"]

/-- Reason text for `absent`/`absent_over_time` (shortened from the Go text,
same key and structure; no claim inspects reason texts). -/
def absentReason (expr : String) (fname : String) (pos : PosRange) : ExcludedLabel :=
  { reason := "The `" ++ fname ++ "()` function only returns labels that are passed to it as equality matchers, so instance specific labels will not be present.",
    fragment := getQueryFragment expr pos }

/-- Reason text for zero-argument calendar functions. -/
def calendarReason (expr : String) (fname : String) (pos : PosRange) : ExcludedLabel :=
  { reason := "Calling `" ++ fname ++ "()` with no arguments will return an empty time series with no labels.",
    fragment := getQueryFragment expr pos }

/-- Reason text for scalar-returning functions. -/
def scalarFuncReason (expr : String) (fname : String) (pos : PosRange) : ExcludedLabel :=
  { reason := "Calling `" ++ fname ++ "()` will return a scalar value with no labels.",
    fragment := getQueryFragment expr pos }

/-- Reason text for `vector()`. -/
def vectorFuncReason (expr : String) (fname : String) (pos : PosRange) : ExcludedLabel :=
  { reason := "Calling `" ++ fname ++ "()` will return a vector value with no labels.",
    fragment := getQueryFragment expr pos }

/-- The argument-gathering loop at the top of Go `parseCall`: for each
argument whose declared type (the last declared type for variadic overflow)
is vector or matrix, append the selectors of all its sources.  When
`argTypes` is empty Go would panic on `ArgTypes[len-1]`; the parser never
produces a call with arguments but no declared argument types, and the model
skips such arguments. -/
def collectSelectors (argTypes : List ValueType) (argSrcs : List (List Source)) :
    List VectorSelector :=
  argSrcs.enum.foldl
    (fun acc p =>
      let vt := if p.1 ≥ argTypes.length then argTypes.getLastD "" else argTypes.getD p.1 ""
      if vt == ValueTypeVector || vt == ValueTypeMatrix then
        acc ++ p.2.flatMap (fun es => es.Selectors)
      else acc)
    []

/-- Go `parseCall`, applied to the already-computed sources of each
argument. -/
def parseCallFrom (expr : String) (func : PromFunction) (args : List Node) (pos : PosRange)
    (argSrcs : List (List Source)) : Source :=
  let s : Source :=
    { SrcType := .FuncSource, Operation := func.name, Call := some ⟨func, args, pos⟩,
      Selectors := collectSelectors func.argTypes argSrcs }
  if labelPreservingNames.contains func.name then
    { s with
      Returns := ValueTypeVector,
      GuaranteedLabels :=
        appendToSlice s.GuaranteedLabels (labelsFromSelectors guaranteedLabelsMatches s.Selectors) }
  else if func.name == "absent" || func.name == "absent_over_time" then
    let positives := labelsFromSelectors [.MatchEqual] s.Selectors
    { s with
      Returns := ValueTypeVector,
      FixedLabels := true,
      IncludedLabels := appendToSlice s.IncludedLabels positives,
      GuaranteedLabels := appendToSlice s.GuaranteedLabels positives,
      ExcludeReason := setInMap s.ExcludeReason "" (absentReason expr func.name pos) }
  else if calendarNames.contains func.name then
    if args.isEmpty then
      { s with
        Returns := ValueTypeVector,
        FixedLabels := true,
        AlwaysReturns := true,
        IncludedLabels := [],
        GuaranteedLabels := [],
        ExcludeReason := setInMap s.ExcludeReason "" (calendarReason expr func.name pos) }
    else
      { s with
        Returns := ValueTypeVector,
        GuaranteedLabels :=
          appendToSlice s.GuaranteedLabels
            (labelsFromSelectors guaranteedLabelsMatches s.Selectors) }
  else if func.name == "label_replace" || func.name == "label_join" then
    { s with
      Returns := ValueTypeVector,
      GuaranteedLabels :=
        appendToSlice
          (appendToSlice s.GuaranteedLabels
            (labelsFromSelectors guaranteedLabelsMatches s.Selectors))
          [paramStringVal (args.get? 1)] }
  else if scalarFuncNames.contains func.name then
    { s with
      Returns := ValueTypeScalar,
      IncludedLabels := [],
      GuaranteedLabels := [],
      FixedLabels := true,
      AlwaysReturns := true,
      ExcludeReason := setInMap s.ExcludeReason "" (scalarFuncReason expr func.name pos) }
  else if func.name == "sort" || func.name == "sort_desc" then
    { s with Returns := ValueTypeVector }
  else if func.name == "vector" then
    let s1 :=
      { s with
        Returns := ValueTypeVector,
        IncludedLabels := [],
        GuaranteedLabels := [],
        FixedLabels := true,
        AlwaysReturns := true }
    let s2 :=
      match args.get? 0 with
      | some (.NumberLiteral v _) => { s1 with ReturnedNumbers := s1.ReturnedNumbers ++ [v] }
      | _ => s1
    { s2 with ExcludeReason := setInMap s2.ExcludeReason "" (vectorFuncReason expr func.name pos) }
  else
    { s with Returns := ValueTypeNone, Call := none }

/-- One iteration of the inner constant-folding loops of Go `parseBinOps`:

    for i, lv := range ls.ReturnedNumbers {
        for _, rv := range rs.ReturnedNumbers {
            ls.ReturnedNumbers[i], ls.IsDead = calculateStaticReturn(lv, rv, n.Op, ls.IsDead)
        }
    }

`lv` is the value read at the start of the `i` iteration, every `rv` rewrites
slot `i` (the last one wins) and the dead flag threads through every pair. -/
def staticFold (op : ItemType) (rns rvs : List ℚ) (dead : Bool) : List ℚ × Bool :=
  rns.foldl
    (fun acc lv =>
      let r := rvs.foldl (fun p rv => calculateStaticReturn lv rv op p.2) (lv, acc.2)
      (acc.1 ++ [r.1], r.2))
    ([], dead)

/-- The body of the `n.VectorMatching == nil` case of Go `parseBinOps` for a
fixed lhs source `ls`: walk the rhs sources in order, emitting either a copy
of `ls` or the rhs source.  Go's appended copies of `ls` all share the
`ReturnedNumbers` backing array, which later iterations keep mutating, while
`IsDead` is copied by value; so each emitted copy carries the dead flag as of
its own iteration (`Sum.inl`) but the final numbers, which the first
component of `pairAcc` threads to the end. -/
def pairAcc (op : ItemType) (ls : Source) (rn : List ℚ) (dead : Bool) :
    List Source → List ℚ × Bool × List (Bool ⊕ Source)
  | [] => (rn, dead, [])
  | rs :: rest =>
    if ls.AlwaysReturns && rs.AlwaysReturns then
      let r := staticFold op rn rs.ReturnedNumbers dead
      let t := pairAcc op ls r.1 r.2 rest
      (t.1, t.2.1, Sum.inl r.2 :: t.2.2)
    else if ls.Returns == ValueTypeVector || ls.Returns == ValueTypeMatrix then
      let t := pairAcc op ls rn dead rest
      (t.1, t.2.1, Sum.inl dead :: t.2.2)
    else if rs.Returns == ValueTypeVector || rs.Returns == ValueTypeMatrix then
      let t := pairAcc op ls rn dead rest
      (t.1, t.2.1, Sum.inr rs :: t.2.2)
    else
      pairAcc op ls rn dead rest

/-- All sources emitted for one lhs source in the no-vector-matching case. -/
def emitPairs (op : ItemType) (ls : Source) (rhs : List Source) : List Source :=
  let t := pairAcc op ls ls.ReturnedNumbers ls.IsDead rhs
  t.2.2.map (fun e =>
    match e with
    | Sum.inl d => { ls with ReturnedNumbers := t.1, IsDead := d }
    | Sum.inr rs => rs)

/-- Reason text for one-to-one `on(...)` matching. -/
def onReason (expr : String) (card : VectorCard) (ml : List String) (lhs rhs : Node) :
    ExcludedLabel :=
  { reason := "Query is using " ++ cardString card ++ " vector matching with `on(" ++
      String.intercalate ", " ml ++
      ")`, only labels included inside `on(...)` will be present on the results.",
    fragment := getQueryFragment expr
      ⟨lhs.positionRange.startPos, rhs.positionRange.endPos⟩ }

/-- Reason text for one-to-one `ignoring(...)` matching. -/
def ignoringReason (expr : String) (card : VectorCard) (ml : List String) (lhs rhs : Node) :
    ExcludedLabel :=
  { reason := "Query is using " ++ cardString card ++ " vector matching with `ignoring(" ++
      String.intercalate ", " ml ++
      ")`, all labels included inside `ignoring(...)` will be removed on the results.",
    fragment := getQueryFragment expr
      ⟨lhs.positionRange.startPos, rhs.positionRange.endPos⟩ }

/-- Go `parseBinOps`, applied to the already-computed sources of both sides
(`lhs`/`rhs` nodes are carried only for their position ranges, which feed
diagnostic fragments). -/
def parseBinOpsFrom (expr : String) (op : ItemType) (vm : Option VectorMatching)
    (lhs rhs : Node) (lhsSrc rhsSrc : List Source) : List Source :=
  match vm with
  | none => lhsSrc.flatMap (fun ls => emitPairs op ls rhsSrc)
  | some m =>
    match m.card with
    | .CardOneToOne =>
      lhsSrc.map (fun s0 =>
        let s :=
          if m.isOn then
            { s0 with
              FixedLabels := true,
              IncludedLabels := appendToSlice s0.IncludedLabels m.matchingLabels,
              ExcludedLabels := removeFromSlice s0.ExcludedLabels m.matchingLabels,
              ExcludeReason :=
                setInMap (delKeys s0.ExcludeReason m.matchingLabels) ""
                  (onReason expr m.card m.matchingLabels lhs rhs) }
          else
            { s0 with
              IncludedLabels := removeFromSlice s0.IncludedLabels m.matchingLabels,
              GuaranteedLabels := removeFromSlice s0.GuaranteedLabels m.matchingLabels,
              ExcludedLabels := appendToSlice s0.ExcludedLabels m.matchingLabels,
              ExcludeReason :=
                m.matchingLabels.foldl
                  (fun mm name =>
                    setInMap mm name (ignoringReason expr m.card m.matchingLabels lhs rhs))
                  s0.ExcludeReason }
        { s with Operation := if s.Operation == "" then cardString m.card else s.Operation })
    | .CardOneToMany =>
      rhsSrc.map (fun s0 =>
        let s1 := { s0 with IncludedLabels := appendToSlice s0.IncludedLabels m.includeLabels }
        let s2 :=
          if m.isOn then
            { s1 with
              IncludedLabels := appendToSlice s1.IncludedLabels m.matchingLabels,
              ExcludeReason := delKeys s1.ExcludeReason m.matchingLabels }
          else s1
        let s3 :=
          { s2 with
            ExcludedLabels := removeFromSlice s2.ExcludedLabels m.includeLabels,
            ExcludeReason := delKeys s2.ExcludeReason m.includeLabels }
        { s3 with Operation := if s3.Operation == "" then cardString m.card else s3.Operation })
    | .CardManyToOne =>
      lhsSrc.map (fun s0 =>
        let s1 := { s0 with IncludedLabels := appendToSlice s0.IncludedLabels m.includeLabels }
        let s2 :=
          if m.isOn then
            { s1 with
              IncludedLabels := appendToSlice s1.IncludedLabels m.matchingLabels,
              ExcludeReason := delKeys s1.ExcludeReason m.matchingLabels }
          else s1
        let s3 :=
          { s2 with
            ExcludedLabels := removeFromSlice s2.ExcludedLabels m.includeLabels,
            ExcludeReason := delKeys s2.ExcludeReason m.includeLabels }
        { s3 with Operation := if s3.Operation == "" then cardString m.card else s3.Operation })
    | .CardManyToMany =>
      let lhsOut :=
        lhsSrc.map (fun s0 =>
          let s1 :=
            if m.isOn then
              { s0 with
                IncludedLabels := appendToSlice s0.IncludedLabels m.matchingLabels,
                ExcludeReason := delKeys s0.ExcludeReason m.matchingLabels }
            else s0
          { s1 with Operation := if s1.Operation == "" then cardString m.card else s1.Operation })
      let lhsCanBeEmpty := lhsSrc.any (fun s => !s.AlwaysReturns)
      if op == .LOR then
        lhsOut ++
          rhsSrc.map (fun s0 =>
            let s1 :=
              { s0 with Operation := if s0.Operation == "" then cardString m.card else s0.Operation }
            if !lhsCanBeEmpty then { s1 with IsDead := true } else s1)
      else lhsOut

/-- The source emitted for a number literal. -/
def numberSource (expr : String) (v : ℚ) (pos : PosRange) : Source :=
  { SrcType := .NumberSource,
    Returns := ValueTypeScalar,
    ReturnedNumbers := [v],
    IncludedLabels := [],
    GuaranteedLabels := [],
    FixedLabels := true,
    AlwaysReturns := true,
    ExcludeReason :=
      setInMap [] ""
        { reason := "This returns a number value with no labels.",
          fragment := getQueryFragment expr pos } }

/-- The source emitted for a string literal. -/
def stringSource (expr : String) (pos : PosRange) : Source :=
  { SrcType := .StringSource,
    Returns := ValueTypeString,
    IncludedLabels := [],
    GuaranteedLabels := [],
    FixedLabels := true,
    AlwaysReturns := true,
    ExcludeReason :=
      setInMap [] ""
        { reason := "This returns a string value with no labels.",
          fragment := getQueryFragment expr pos } }

/-- The source emitted for a vector selector. -/
def selectorSource (vs : VectorSelector) : Source :=
  { SrcType := .SelectorSource,
    Returns := ValueTypeVector,
    Selectors := [vs],
    GuaranteedLabels := appendToSlice [] (labelsFromSelectors guaranteedLabelsMatches [vs]) }

mutual

/-- Go `walkNode`: the main traversal of the label-flow analyzer. -/
def walkNode (expr : String) : Node → List Source
  | .AggregateExpr op e param grouping without pos =>
    walkAggregationFrom expr op param grouping without pos (walkNode expr e)
  | .BinaryExpr op lhs rhs vm _ =>
    parseBinOpsFrom expr op vm lhs rhs (walkNode expr lhs) (walkNode expr rhs)
  | .Call func args pos => [parseCallFrom expr func args pos (walkList expr args)]
  | .MatrixSelector v => walkNode expr v
  | .SubqueryExpr e => walkNode expr e
  | .NumberLiteral v pos => [numberSource expr v pos]
  | .ParenExpr e => walkNode expr e
  | .StringLiteral _ pos => [stringSource expr pos]
  | .UnaryExpr e => walkNode expr e
  | .StepInvariantExpr _ => []
  | .VectorSelector vs => [selectorSource vs]

/-- Walk each call argument (the loop over `n.Args` in `parseCall`). -/
def walkList (expr : String) : List Node → List (List Source)
  | [] => []
  | a :: rest => walkNode expr a :: walkList expr rest

end

/-- Go `LabelsSource`: the public entry point of the analyzer. -/
def LabelsSource (expr : String) (node : Node) : List Source :=
  walkNode expr node

/-- Problem severity (Go `checks.Severity`). -/
inductive Severity where
  | Information
  | Warning
  | Bug
  | Fatal
deriving DecidableEq, Repr

/-- Inclusive line range of a rule expression inside the rule file. -/
structure LineRange where
  first : Nat
  last : Nat
deriving DecidableEq, Repr

/-- A check result (Go `checks.Problem`), restricted to the fields the
comparison check fills. -/
structure Problem where
  fragment : String
  lines : LineRange
  reporter : String
  text : String
  severity : Severity
deriving DecidableEq, Repr

/-- Modelled from the spec: the pint parser wraps every PromQL node in a
`PromQLNode` tree mirroring the AST (`parser.PromQLNode`, declared outside
the given sources), carrying the promParser node plus child wrappers. -/
inductive PromQLNode where
  | mk (node : Node) (children : List PromQLNode)

/-- The promParser node wrapped by a `PromQLNode`. -/
def PromQLNode.node : PromQLNode → Node
  | .mk n _ => n

/-- The child wrappers of a `PromQLNode`. -/
def PromQLNode.children : PromQLNode → List PromQLNode
  | .mk _ c => c

/-- Modelled from the spec: a parsed rule expression (`parser.PromQLExpr`,
declared outside the given sources) carries the raw text, its line range, a
possible syntax error and the parsed query. -/
structure PromQLExpr where
  value : String
  lines : LineRange
  syntaxError : Option String
  query : PromQLNode

/-- Modelled from the spec: an alerting rule
(`parser.AlertingRule`, declared outside the given sources), restricted to
the expression the comparison check reads. -/
structure AlertingRule where
  expr : PromQLExpr

/-- Modelled from the spec: a rule (`parser.Rule`, declared outside the
given sources) is an alerting rule or something else; `rule.Expr()` returns
the alerting rule expression when the alerting rule is present, which is the
only case in which the check reads it. -/
structure Rule where
  alertingRule : Option AlertingRule

/-- The result of Go `utils.HasOuterBinaryExpr`: the fields of the returned
`*promParser.BinaryExpr`. -/
structure BinaryInfo where
  op : ItemType
  lhs : Node
  rhs : Node
  vectorMatching : Option VectorMatching
  returnBool : Bool

/-- Modelled from the spec: `has_outer_binary(node)` returns the binary
expression at the outermost level, skipping `Paren` and `Unary` wrappers
(`utils.HasOuterBinaryExpr` is declared outside the given sources). -/
def hasOuterBinaryNode : Node → Option BinaryInfo
  | .BinaryExpr op l r vm rb => some ⟨op, l, r, vm, rb⟩
  | .ParenExpr e => hasOuterBinaryNode e
  | .UnaryExpr e => hasOuterBinaryNode e
  | _ => none

/-- `HasOuterBinaryExpr` applied to the wrapped root node. -/
def hasOuterBinaryExpr (q : PromQLNode) : Option BinaryInfo :=
  hasOuterBinaryNode q.node

mutual

/-- Go `hasComparision` (spelling from the source): return the first
descendant binary expression whose operator is a comparison operator or
`unless`.  The recursion over `promParser.Children` is inlined per node
kind, preserving child order (`[Expr, Param]` for aggregations, `[LHS, RHS]`
for binaries, the argument list for calls). -/
def hasComparision : Node → Option BinaryInfo
  | .BinaryExpr op l r vm rb =>
    if IsComparisonOperator op || op == ItemType.LUNLESS then some ⟨op, l, r, vm, rb⟩
    else
      match hasComparision l with
      | some b => some b
      | none => hasComparision r
  | .AggregateExpr _ e param _ _ _ =>
    (match hasComparision e with
     | some b => some b
     | none => hasComparisionOpt param)
  | .Call _ args _ => hasComparisionList args
  | .MatrixSelector v => hasComparision v
  | .SubqueryExpr e => hasComparision e
  | .ParenExpr e => hasComparision e
  | .UnaryExpr e => hasComparision e
  | .StepInvariantExpr e => hasComparision e
  | _ => none

/-- Scan an optional child (the aggregation parameter). -/
def hasComparisionOpt : Option Node → Option BinaryInfo
  | none => none
  | some p => hasComparision p

/-- Scan children in order, returning the first hit. -/
def hasComparisionList : List Node → Option BinaryInfo
  | [] => none
  | a :: rest =>
    match hasComparision a with
    | some b => some b
    | none => hasComparisionList rest

end

mutual

/-- Go `isAbsent`: true when the node or any descendant is a call to the
function named `absent` (note: NOT `absent_over_time`).  The recursion over
`promParser.Children` is inlined per node kind. -/
def isAbsent : Node → Bool
  | .Call f args _ => f.name == "absent" || isAbsentList args
  | .AggregateExpr _ e param _ _ _ => isAbsent e || isAbsentOpt param
  | .BinaryExpr _ l r _ _ => isAbsent l || isAbsent r
  | .MatrixSelector v => isAbsent v
  | .SubqueryExpr e => isAbsent e
  | .ParenExpr e => isAbsent e
  | .UnaryExpr e => isAbsent e
  | .StepInvariantExpr e => isAbsent e
  | _ => false

/-- Scan an optional child. -/
def isAbsentOpt : Option Node → Bool
  | none => false
  | some p => isAbsent p

/-- Scan a child list. -/
def isAbsentList : List Node → Bool
  | [] => false
  | a :: rest => isAbsent a || isAbsentList rest

end

mutual

/-- Go `hasAbsent`: `isAbsent` on the wrapped node or any wrapped child. -/
def hasAbsent : PromQLNode → Bool
  | .mk n children => isAbsent n || hasAbsentList children

/-- Scan the wrapped children. -/
def hasAbsentList : List PromQLNode → Bool
  | [] => false
  | c :: rest => hasAbsent c || hasAbsentList rest

end

/-- Go `rewriteSeverity`: escalate when any of the given nodes is itself a
call to `vector`. -/
def rewriteSeverity (s : Severity) (nodes : List Node) : Severity :=
  if nodes.any (fun n =>
      match n with
      | .Call f _ _ => f.name == "vector"
      | _ => false) then
    Severity.Bug
  else s

/-- Go `ComparisonCheckName`. -/
def comparisonCheckName : String := "alerts/comparison"

/-- Problem text of the always-firing `or` warning (the Go text quotes `or`
with straight apostrophes; backticks are used here). -/
def orText : String :=
  "alert query uses `or` operator with one side of the query that will always return a result, this alert will always fire"

/-- Problem text of the bool-modifier bug. -/
def boolText : String :=
  "alert query uses bool modifier for comparison, this means it will always return a result and the alert will always fire"

/-- Problem text of the no-condition warning (the Go text spells
`doesn't`; the apostrophe is expanded here). -/
def noCondText : String :=
  "alert query does not have any condition, it will always fire if the metric exists"

/-- Go `ComparisonCheck.Check`: skip non-alerting rules and syntax errors;
then (1) warn when the outer `or` has a comparison-free side and neither
side contains an `absent(...)` call, (2) report a bug when the first
comparison found uses the `bool` modifier and its operands contain no
further comparison — and return, (3) otherwise warn when the expression has
no comparison and no `absent(...)` anywhere. -/
def comparisonCheck (rule : Rule) : List Problem :=
  match rule.alertingRule with
  | none => []
  | some ar =>
    match ar.expr.syntaxError with
    | some _ => []
    | none =>
      let q := ar.expr.query
      let probs1 : List Problem :=
        match hasOuterBinaryExpr q with
        | some b =>
          if b.op == ItemType.LOR &&
              ((hasComparision b.lhs).isNone || (hasComparision b.rhs).isNone) &&
              !isAbsent b.lhs && !isAbsent b.rhs then
            [{ fragment := ar.expr.value, lines := ar.expr.lines,
               reporter := comparisonCheckName, text := orText,
               severity := rewriteSeverity .Warning [b.lhs, b.rhs] }]
          else []
        | none => []
      match hasComparision q.node with
      | some b =>
        probs1 ++
          (if b.returnBool && (hasComparision b.lhs).isNone && (hasComparision b.rhs).isNone then
            [{ fragment := ar.expr.value, lines := ar.expr.lines,
               reporter := comparisonCheckName, text := boolText, severity := .Bug }]
          else [])
      | none =>
        if hasAbsent q then probs1
        else
          probs1 ++
            [{ fragment := ar.expr.value, lines := ar.expr.lines,
               reporter := comparisonCheckName, text := noCondText, severity := .Warning }]

/-- Spec-side reading for claim C2: the label names used in positive (Equal
or Regex) matchers of the given selectors, excluding `__name__`, one entry
per matcher, in source order. -/
def specPositiveNames (sels : List VectorSelector) : List String :=
  sels.flatMap (fun sel =>
    (sel.labelMatchers.filter (fun lm =>
      lm.name != metricName &&
        (lm.mtype == MatchType.MatchEqual || lm.mtype == MatchType.MatchRegexp))).map
      (fun lm => lm.name))

/-- Spec-side predicate for claim C6: the comparison predicate of the six
comparison operators on two numbers. -/
def comparisonHolds (op : ItemType) (lv rv : ℚ) : Bool :=
  match op with
  | .EQLC => lv == rv
  | .NEQ => lv != rv
  | .LTE => decide (lv ≤ rv)
  | .LSS => decide (lv < rv)
  | .GTE => decide (lv ≥ rv)
  | .GTR => decide (lv > rv)
  | _ => false

/-- Spec-side predicate for claim C4: whether a node is itself a `vector(n)`
call. -/
def isVectorCall : Node → Bool
  | .Call f _ _ => f.name == "vector"
  | _ => false

mutual

/-- The notion of "absent side" asserted by claim C4 (and §4.4.2 of the
spec): any descendant call to `absent` OR `absent_over_time`.  The code
(`isAbsent`) checks only `absent`; this definition exists to state the
difference. -/
def isAbsentClaimed : Node → Bool
  | .Call f args _ =>
    f.name == "absent" || f.name == "absent_over_time" || isAbsentClaimedList args
  | .AggregateExpr _ e param _ _ _ => isAbsentClaimed e || isAbsentClaimedOpt param
  | .BinaryExpr _ l r _ _ => isAbsentClaimed l || isAbsentClaimed r
  | .MatrixSelector v => isAbsentClaimed v
  | .SubqueryExpr e => isAbsentClaimed e
  | .ParenExpr e => isAbsentClaimed e
  | .UnaryExpr e => isAbsentClaimed e
  | .StepInvariantExpr e => isAbsentClaimed e
  | _ => false

/-- Scan an optional child. -/
def isAbsentClaimedOpt : Option Node → Bool
  | none => false
  | some p => isAbsentClaimed p

/-- Scan a child list. -/
def isAbsentClaimedList : List Node → Bool
  | [] => false
  | a :: rest => isAbsentClaimed a || isAbsentClaimedList rest

end

mutual

/-- The condition asserted by claim C5: SOME descendant binary expression is
a comparison carrying the `bool` modifier whose operands contain no further
comparison.  The code checks only the FIRST comparison-or-unless binary
found; this definition exists to state the difference. -/
def hasBoolComparisionClaimed : Node → Bool
  | .BinaryExpr op l r _ rb =>
    (IsComparisonOperator op && rb && (hasComparision l).isNone && (hasComparision r).isNone) ||
      hasBoolComparisionClaimed l || hasBoolComparisionClaimed r
  | .AggregateExpr _ e param _ _ _ =>
    hasBoolComparisionClaimed e || hasBoolComparisionClaimedOpt param
  | .Call _ args _ => hasBoolComparisionClaimedList args
  | .MatrixSelector v => hasBoolComparisionClaimed v
  | .SubqueryExpr e => hasBoolComparisionClaimed e
  | .ParenExpr e => hasBoolComparisionClaimed e
  | .UnaryExpr e => hasBoolComparisionClaimed e
  | .StepInvariantExpr e => hasBoolComparisionClaimed e
  | _ => false

/-- Scan an optional child. -/
def hasBoolComparisionClaimedOpt : Option Node → Bool
  | none => false
  | some p => hasBoolComparisionClaimed p

/-- Scan a child list. -/
def hasBoolComparisionClaimedList : List Node → Bool
  | [] => false
  | a :: rest => hasBoolComparisionClaimed a || hasBoolComparisionClaimedList rest

end

/-- The aggregation operators `walkAggregation` handles (all the operators
the parser can put in an `AggregateExpr`, the experimental `limitk` and
`limit_ratio` being disabled). -/
def isAggregationOp : ItemType → Bool
  | .SUM | .MIN | .MAX | .AVG | .GROUP | .STDDEV | .STDVAR | .COUNT
  | .COUNT_VALUES | .QUANTILE | .TOPK | .BOTTOMK => true
  | _ => false

/-- Every function name `parseCall` supports, i.e. every stable function the
PromQL parser accepts. -/
def supportedFunctionNames : List String :=
  labelPreservingNames ++ ["absent", "absent_over_time"] ++ calendarNames ++
    ["label_replace", "label_join"] ++ scalarFuncNames ++ ["sort", "sort_desc", "vector"]

/-- Well-typed, parser-producible expressions, for claim C8: no
`StepInvariantExpr` (never produced by parsing), aggregations use
aggregation operators, calls use supported function names. -/
def Wf : Node → Bool
  | .AggregateExpr op e _ _ _ _ => isAggregationOp op && Wf e
  | .BinaryExpr _ l r _ _ => Wf l && Wf r
  | .Call f _ _ => supportedFunctionNames.contains f.name
  | .MatrixSelector v => Wf v
  | .SubqueryExpr e => Wf e
  | .ParenExpr e => Wf e
  | .UnaryExpr e => Wf e
  | .StepInvariantExpr _ => false
  | .NumberLiteral _ _ => true
  | .StringLiteral _ _ => true
  | .VectorSelector _ => true

/-- The label-list well-formedness invariant of claims C1 and C10: the three
label lists carry no duplicate and no label is both guaranteed and
excluded. -/
def goodLabels (s : Source) : Prop :=
  s.IncludedLabels.Nodup ∧ s.ExcludedLabels.Nodup ∧ s.GuaranteedLabels.Nodup ∧
    ∀ a ∈ s.GuaranteedLabels, a ∉ s.ExcludedLabels

/-- The result invariant used for claim C8: every source of a well-typed
expression either always returns or returns a vector or matrix (so the
scalar-vs-vector dispatch of `parseBinOps` always emits something). -/
def goodReturns (s : Source) : Prop :=
  s.AlwaysReturns = true ∨ s.Returns = ValueTypeVector ∨ s.Returns = ValueTypeMatrix

/-! ### Concrete inputs for witnesses and counterexamples -/

/-- Builds the alerting rule the comparison check sees for a parsed
expression (wrapper children left empty; only the root node is inspected by
the paths exercised here). -/
def mkAlertRule (n : Node) : Rule :=
  ⟨some ⟨⟨"expr", ⟨1, 1⟩, none, PromQLNode.mk n []⟩⟩⟩

/-- The selector `foo{job="x"}` (with its `__name__` matcher, as the parser
stores it). -/
def selJob : VectorSelector :=
  ⟨"foo", [⟨.MatchEqual, metricName, "foo"⟩, ⟨.MatchEqual, "job", "x"⟩], ⟨0, 3⟩⟩

/-- The expression `foo{job="x"}` as a node. -/
def selJobNode : Node := .VectorSelector selJob

/-- The selector `foo{a="1", b="2", c="3"}` used by the C3 failing input. -/
def c3Sel : VectorSelector :=
  ⟨"foo",
   [⟨.MatchEqual, metricName, "foo"⟩, ⟨.MatchEqual, "a", "1"⟩, ⟨.MatchEqual, "b", "2"⟩,
    ⟨.MatchEqual, "c", "3"⟩],
   ⟨10, 15⟩⟩

/-- The C3 failing input `sum by(x) (foo{a="1", b="2", c="3"})`. -/
def c3Node : Node := .AggregateExpr .SUM (.VectorSelector c3Sel) none ["x"] false ⟨0, 15⟩

/-- The `rate` function header (`promParser.Functions["rate"]`). -/
def rateFunc : PromFunction := ⟨"rate", [ValueTypeMatrix]⟩

/-- The C2 counterexample `rate(foo{a="1", a=~"x"}[5m])`: the label `a` is
used by two positive matchers of a single selector. -/
def c2CexNode : Node :=
  .Call rateFunc
    [.MatrixSelector (.VectorSelector
      ⟨"foo", [⟨.MatchEqual, metricName, "foo"⟩, ⟨.MatchEqual, "a", "1"⟩,
               ⟨.MatchRegexp, "a", "x"⟩], ⟨5, 10⟩⟩)]
    ⟨0, 14⟩

/-- The C2 witness `rate(foo{job="x"}[5m])`. -/
def c2WitNode : Node := .Call rateFunc [.MatrixSelector selJobNode] ⟨0, 14⟩

/-- The `vector` function header. -/
def vectorFunc : PromFunction := ⟨"vector", [ValueTypeScalar]⟩

/-- The `absent_over_time` function header. -/
def absentOverTimeFunc : PromFunction := ⟨"absent_over_time", [ValueTypeMatrix]⟩

/-- The left side `up` of the C4 witness. -/
def c4WitLhs : Node := .VectorSelector ⟨"up", [⟨.MatchEqual, metricName, "up"⟩], ⟨0, 2⟩⟩

/-- The right side `vector(1)` of the C4 witness. -/
def c4WitRhs : Node := .Call vectorFunc [.NumberLiteral 1 ⟨13, 14⟩] ⟨6, 15⟩

/-- The vector matching the parser attaches to `or`. -/
def orMatching : VectorMatching := ⟨.CardManyToMany, [], false, []⟩

/-- The C4 witness expression `up or vector(1)` (spec scenario 8). -/
def c4WitNode : Node := .BinaryExpr .LOR c4WitLhs c4WitRhs (some orMatching) false

/-- The left side `foo` of the C4 counterexample. -/
def c4CexLhs : Node := .VectorSelector ⟨"foo", [⟨.MatchEqual, metricName, "foo"⟩], ⟨0, 3⟩⟩

/-- The right side `absent_over_time(bar[5m])` of the C4 counterexample. -/
def c4CexRhs : Node :=
  .Call absentOverTimeFunc
    [.MatrixSelector (.VectorSelector ⟨"bar", [⟨.MatchEqual, metricName, "bar"⟩], ⟨24, 27⟩⟩)]
    ⟨7, 32⟩

/-- The full C4 counterexample expression `foo or absent_over_time(bar[5m])`. -/
def c4CexNode : Node := .BinaryExpr .LOR c4CexLhs c4CexRhs (some orMatching) false

/-- The left side `up` of the C5 witness. -/
def c5WitLhs : Node := .VectorSelector ⟨"up", [⟨.MatchEqual, metricName, "up"⟩], ⟨0, 2⟩⟩

/-- The right side `0` of the C5 witness. -/
def c5WitRhs : Node := .NumberLiteral 0 ⟨11, 12⟩

/-- The C5 witness expression `up == bool 0` (spec scenario 7). -/
def c5WitNode : Node := .BinaryExpr .EQLC c5WitLhs c5WitRhs none true

/-- The C5 counterexample expression `(a == b) and (c == bool 0)`: the
second comparison carries `bool` with comparison-free operands, but it is
not the first comparison found. -/
def c5CexNode : Node :=
  .BinaryExpr .LAND
    (.ParenExpr (.BinaryExpr .EQLC
      (.VectorSelector ⟨"a", [⟨.MatchEqual, metricName, "a"⟩], ⟨1, 2⟩⟩)
      (.VectorSelector ⟨"b", [⟨.MatchEqual, metricName, "b"⟩], ⟨6, 7⟩⟩)
      (some ⟨.CardOneToOne, [], false, []⟩) false))
    (.ParenExpr (.BinaryExpr .EQLC
      (.VectorSelector ⟨"c", [⟨.MatchEqual, metricName, "c"⟩], ⟨14, 15⟩⟩)
      (.NumberLiteral 0 ⟨24, 25⟩) none true))
    (some ⟨.CardManyToMany, [], false, []⟩) false

/-- A rule carrying a syntax error, for the C9 witness. -/
def c9SyntaxErrorRule : Rule :=
  ⟨some ⟨⟨"up ==", ⟨1, 1⟩, some "unexpected end of input", PromQLNode.mk (.NumberLiteral 0 ⟨0, 0⟩) []⟩⟩⟩

/-- A recording (non-alerting) rule, for the C9 witness. -/
def c9RecordingRule : Rule := ⟨none⟩

/-! ### Properties of the slice helpers -/

/-- One-step `removeFromSlice` is `List.erase`: deleting at the first found
index (with the singleton short-cut) removes exactly the first occurrence. -/
theorem removeOne_eq_erase : ∀ (sl : List String) (v : String), removeOne sl v = sl.erase v
  | [], _ => rfl
  | a :: l, v => by
    unfold removeOne
    rw [List.findIdx?_cons]
    by_cases hav : (a == v) = true
    · have hav' : a = v := by simpa using hav
      subst hav'
      rw [if_pos hav]
      cases l with
      | nil => simp
      | cons b m => simp
    · rw [if_neg hav, List.findIdx?_start_succ, List.erase_cons, if_neg hav]
      cases hfi : l.findIdx? (fun x => x == v) with
      | none =>
        have hnm : v ∉ l := by
          intro hm
          have := List.findIdx?_eq_none_iff.mp hfi v hm
          simp at this
        simp [List.erase_of_not_mem hnm]
      | some i =>
        have hlne : l ≠ [] := by
          intro h
          subst h
          simp at hfi
        have hlen : ((a :: l).length == 1) = false := by
          cases l with
          | nil => exact absurd rfl hlne
          | cons b m => simp
        simp only [Option.map_some', hlen, Nat.zero_add, Bool.false_eq_true, if_false,
          List.eraseIdx_cons_succ]
        have ih0 := removeOne_eq_erase l v
        unfold removeOne at ih0
        rw [hfi] at ih0
        have ih : (if (l.length == 1) = true then [] else l.eraseIdx i) = l.erase v := ih0
        by_cases hl1 : (l.length == 1) = true
        · rw [if_pos hl1] at ih
          have hi : i = 0 := by
            have := (List.findIdx?_eq_some_iff_findIdx_eq).mp hfi
            have hl1' : l.length = 1 := by simpa using hl1
            omega
          subst hi
          rw [← ih]
          congr 1
          rw [List.eraseIdx_eq_nil]
          right
          exact ⟨by simpa using hl1, rfl⟩
        · rw [if_neg hl1] at ih
          rw [ih]

/-- `removeFromSlice` is an iterated `List.erase`. -/
theorem removeFromSlice_eq_foldl_erase (sl vs : List String) :
    removeFromSlice sl vs = vs.foldl List.erase sl := by
  unfold removeFromSlice
  induction vs generalizing sl with
  | nil => rfl
  | cons v vs ih => simp [List.foldl_cons, removeOne_eq_erase, ih]

/-- `removeFromSlice` only drops elements. -/
theorem removeFromSlice_sublist (sl vs : List String) : List.Sublist (removeFromSlice sl vs) sl := by
  rw [removeFromSlice_eq_foldl_erase]
  induction vs generalizing sl with
  | nil => exact List.Sublist.refl sl
  | cons v vs ih =>
    rw [List.foldl_cons]
    exact (ih (sl.erase v)).trans (List.erase_sublist v sl)

/-- `removeFromSlice` preserves absence of duplicates. -/
theorem nodup_removeFromSlice {sl : List String} (h : sl.Nodup) (vs : List String) :
    (removeFromSlice sl vs).Nodup :=
  (removeFromSlice_sublist sl vs).nodup h

/-- Membership after `removeFromSlice` on a duplicate-free list: exactly the
elements not listed for removal survive. -/
theorem mem_removeFromSlice {sl : List String} (h : sl.Nodup) (vs : List String) (a : String) :
    a ∈ removeFromSlice sl vs ↔ a ∈ sl ∧ a ∉ vs := by
  rw [removeFromSlice_eq_foldl_erase]
  induction vs generalizing sl with
  | nil => simp
  | cons v vs ih =>
    rw [List.foldl_cons, ih (h.erase v)]
    rw [h.mem_erase_iff]
    constructor
    · rintro ⟨⟨hne, hmem⟩, hnin⟩
      exact ⟨hmem, by simp [hne, hnin]⟩
    · rintro ⟨hmem, hnin⟩
      simp only [List.mem_cons, not_or] at hnin
      exact ⟨⟨hnin.1, hmem⟩, hnin.2⟩

/-- Membership after `appendToSlice`. -/
theorem mem_appendToSlice (dst vs : List String) (a : String) :
    a ∈ appendToSlice dst vs ↔ a ∈ dst ∨ a ∈ vs := by
  induction vs generalizing dst with
  | nil => simp [appendToSlice]
  | cons v vs ih =>
    rw [appendToSlice, ih]
    by_cases hv : dst.contains v
    · have : v ∈ dst := by simpa using hv
      simp only [if_pos hv, List.mem_cons]
      constructor
      · rintro (h | h)
        · exact Or.inl h
        · exact Or.inr (Or.inr h)
      · rintro (h | h | h)
        · exact Or.inl h
        · exact Or.inl (h ▸ this)
        · exact Or.inr h
    · simp only [if_neg hv, List.mem_append, List.mem_singleton, List.mem_cons]
      tauto

/-- `appendToSlice` preserves absence of duplicates. -/
theorem nodup_appendToSlice {dst : List String} (h : dst.Nodup) (vs : List String) :
    (appendToSlice dst vs).Nodup := by
  induction vs generalizing dst with
  | nil => exact h
  | cons v vs ih =>
    rw [appendToSlice]
    by_cases hv : dst.contains v
    · rw [if_pos hv]
      exact ih h
    · rw [if_neg hv]
      refine ih ?_
      have hvm : v ∉ dst := by simpa using hv
      simpa [List.nodup_append] using ⟨h, hvm⟩

/-- A fold whose every step is a sublist step yields a sublist. -/
theorem foldl_sublist {β : Type} (f : List String → β → List String) (l : List β)
    (hf : ∀ acc x, List.Sublist (f acc x) acc) :
    ∀ init : List String, List.Sublist (l.foldl f init) init := by
  induction l with
  | nil => intro init; exact List.Sublist.refl init
  | cons x xs ih =>
    intro init
    rw [List.foldl_cons]
    exact (ih (f init x)).trans (hf init x)

/-- The guaranteed-labels filtering loop only drops labels (whatever the Go
aliasing makes it read, every step is a removal from the current slice). -/
theorem filterGuaranteed_sublist (grouping g : List String) :
    List.Sublist (filterGuaranteed grouping g) g := by
  unfold filterGuaranteed
  refine foldl_sublist _ _ (fun acc i => ?_) g
  by_cases h : grouping.contains (acc.getD i "")
  · simp only [if_pos h]
    exact List.Sublist.refl acc
  · simp only [if_neg h]
    exact removeFromSlice_sublist acc _

/-- `removeFromSlice` of a single value is `List.erase`. -/
theorem removeFromSlice_singleton (sl : List String) (v : String) :
    removeFromSlice sl [v] = sl.erase v := by
  rw [removeFromSlice_eq_foldl_erase]
  rfl

/-- Membership after the key-removal fold of `labelsFromSelectors`. -/
theorem mem_foldl_removeIf (q : String → Bool) (a : String) :
    ∀ (keys acc : List String), acc.Nodup →
      (a ∈ keys.foldl (fun ac k => if q k then removeFromSlice ac [k] else ac) acc ↔
        a ∈ acc ∧ (a ∈ keys → q a = false)) := by
  intro keys
  induction keys with
  | nil => intro acc _; simp
  | cons k ks ih =>
    intro acc hacc
    rw [List.foldl_cons]
    by_cases hq : q k = true
    · rw [if_pos hq, removeFromSlice_singleton]
      rw [ih (acc.erase k) (hacc.erase k)]
      rw [hacc.mem_erase_iff]
      by_cases hak : a = k
      · subst hak
        simp [hq]
      · simp only [List.mem_cons]
        constructor
        · rintro ⟨⟨_, hmem⟩, hks⟩
          refine ⟨hmem, fun h => ?_⟩
          rcases h with h | h
          · exact absurd h hak
          · exact hks h
        · rintro ⟨hmem, hcond⟩
          exact ⟨⟨hak, hmem⟩, fun h => hcond (Or.inr h)⟩
    · rw [if_neg hq]
      rw [ih acc hacc]
      by_cases hak : a = k
      · subst hak
        simp only [List.mem_cons]
        constructor
        · rintro ⟨hmem, hks⟩
          refine ⟨hmem, fun _ => ?_⟩
          simpa using hq
        · rintro ⟨hmem, hcond⟩
          exact ⟨hmem, fun h => hcond (Or.inr h)⟩
      · simp only [List.mem_cons]
        constructor
        · rintro ⟨hmem, hks⟩
          refine ⟨hmem, fun h => ?_⟩
          rcases h with h | h
          · exact absurd h hak
          · exact hks h
        · rintro ⟨hmem, hcond⟩
          exact ⟨hmem, fun h => hcond (Or.inr h)⟩

/-- The deduplicated name list of `labelsFromSelectors` has no duplicates. -/
theorem nodup_appendToSlice_nil (vs : List String) : (appendToSlice [] vs).Nodup :=
  nodup_appendToSlice List.nodup_nil vs

/-- `labelsFromSelectors` produces no duplicates. -/
theorem nodup_labelsFromSelectors (mtypes : List MatchType) (sels : List VectorSelector) :
    (labelsFromSelectors mtypes sels).Nodup := by
  unfold labelsFromSelectors
  refine List.Sublist.nodup (foldl_sublist _ _ (fun acc name => ?_) _) (nodup_appendToSlice_nil _)
  by_cases h : ((sels.flatMap (selectorMatchNames mtypes)).count name != sels.length) = true
  · simp only [if_pos h, removeFromSlice_singleton]
    exact List.erase_sublist name acc
  · simp only [if_neg h]
    exact List.Sublist.refl acc

/-- Characterization of `labelsFromSelectors`: a name is kept exactly when
it occurs in a positive matcher and its total matcher count equals the
number of selectors. -/
theorem mem_labelsFromSelectors (mtypes : List MatchType) (sels : List VectorSelector)
    (a : String) :
    a ∈ labelsFromSelectors mtypes sels ↔
      a ∈ sels.flatMap (selectorMatchNames mtypes) ∧
        (sels.flatMap (selectorMatchNames mtypes)).count a = sels.length := by
  unfold labelsFromSelectors
  rw [mem_foldl_removeIf _ _ _ _ (nodup_appendToSlice_nil _)]
  rw [mem_appendToSlice]
  simp only [List.not_mem_nil, false_or]
  constructor
  · rintro ⟨hmem, hcond⟩
    have := hcond hmem
    simp only [bne_eq_false_iff_eq] at this
    exact ⟨hmem, this⟩
  · rintro ⟨hmem, hcount⟩
    refine ⟨hmem, fun _ => ?_⟩
    simp [hcount]

/-! ### The label-list invariant (claims C1 and C10) -/

/-- Sources built by `parseCall` never exclude labels and build their label
lists with `appendToSlice` from empty lists, so they satisfy the label-list
invariant outright, whatever the argument sources are. -/
theorem goodLabels_parseCallFrom (expr : String) (func : PromFunction) (args : List Node)
    (pos : PosRange) (argSrcs : List (List Source)) :
    goodLabels (parseCallFrom expr func args pos argSrcs) := by
  unfold parseCallFrom goodLabels
  split
  · exact ⟨List.nodup_nil, List.nodup_nil, nodup_appendToSlice_nil _, by simp⟩
  · split
    · exact ⟨nodup_appendToSlice_nil _, List.nodup_nil, nodup_appendToSlice_nil _, by simp⟩
    · split
      · split
        · exact ⟨List.nodup_nil, List.nodup_nil, List.nodup_nil, by simp⟩
        · exact ⟨List.nodup_nil, List.nodup_nil, nodup_appendToSlice_nil _, by simp⟩
      · split
        · exact ⟨List.nodup_nil, List.nodup_nil,
            nodup_appendToSlice (nodup_appendToSlice_nil _) _, by simp⟩
        · split
          · exact ⟨List.nodup_nil, List.nodup_nil, List.nodup_nil, by simp⟩
          · split
            · exact ⟨List.nodup_nil, List.nodup_nil, List.nodup_nil, by simp⟩
            · split
              · split
                · exact ⟨List.nodup_nil, List.nodup_nil, List.nodup_nil, by simp⟩
                · exact ⟨List.nodup_nil, List.nodup_nil, List.nodup_nil, by simp⟩
              · exact ⟨List.nodup_nil, List.nodup_nil, List.nodup_nil, by simp⟩

/-- `parseAggregation` preserves the label-list invariant. -/
theorem goodLabels_parseAggregationFrom (expr : String) (grouping : List String)
    (without : Bool) (pos : PosRange) {inner : List Source}
    (h : ∀ s ∈ inner, goodLabels s) :
    ∀ s ∈ parseAggregationFrom expr grouping without pos inner, goodLabels s := by
  intro s hs
  unfold parseAggregationFrom at hs
  obtain ⟨s0, hs0, rfl⟩ := List.mem_map.mp hs
  obtain ⟨hI, hE, hG, hD⟩ := h s0 hs0
  by_cases hw : without = true
  · simp only [goodLabels, hw, if_pos]
    refine ⟨nodup_removeFromSlice hI _, nodup_appendToSlice hE _,
      nodup_removeFromSlice hG _, ?_⟩
    intro a ha
    rw [mem_removeFromSlice hG] at ha
    rw [mem_appendToSlice]
    push_neg
    exact ⟨hD a ha.1, ha.2⟩
  · by_cases hg : grouping.isEmpty = true
    · simp only [goodLabels, hw, hg, if_pos, if_neg, Bool.false_eq_true, not_false_iff]
      exact ⟨List.nodup_nil, hE, List.nodup_nil, by simp⟩
    · by_cases hf : s0.FixedLabels = true
      · simp only [goodLabels, hw, hg, hf, Bool.false_eq_true, if_neg, if_pos,
          Bool.not_true, not_false_iff]
        refine ⟨hI, hE, (filterGuaranteed_sublist grouping _).nodup hG, ?_⟩
        intro a ha
        exact hD a ((filterGuaranteed_sublist grouping _).subset ha)
      · simp only [goodLabels, hw, hg, hf, Bool.false_eq_true, Bool.not_false, if_neg,
          if_pos, not_false_iff]
        refine ⟨nodup_appendToSlice hI _, nodup_removeFromSlice hE _,
          (filterGuaranteed_sublist grouping _).nodup hG, ?_⟩
        intro a ha
        have haG : a ∈ s0.GuaranteedLabels := (filterGuaranteed_sublist grouping _).subset ha
        intro hmem
        exact hD a haG ((removeFromSlice_sublist _ _).subset hmem)

/-- `walkAggregation` preserves the label-list invariant. -/
theorem goodLabels_walkAggregationFrom (expr : String) (op : ItemType) (param : Option Node)
    (grouping : List String) (without : Bool) (pos : PosRange) {inner : List Source}
    (h : ∀ s ∈ inner, goodLabels s) :
    ∀ s ∈ walkAggregationFrom expr op param grouping without pos inner, goodLabels s := by
  have hagg := goodLabels_parseAggregationFrom expr grouping without pos h
  intro s hs
  cases op <;> simp only [walkAggregationFrom] at hs <;>
    first
    | exact absurd hs (List.not_mem_nil s)
    | (obtain ⟨s1, hs1, rfl⟩ := List.mem_map.mp hs
       first
       | simpa [goodLabels] using hagg s1 hs1
       | simpa [goodLabels] using h s1 hs1
       | (obtain ⟨hI, hE, hG, hD⟩ := hagg s1 hs1
          refine ⟨nodup_appendToSlice hI _, nodup_removeFromSlice hE _,
            nodup_appendToSlice hG _, ?_⟩
          intro a ha
          rw [mem_appendToSlice] at ha
          rw [removeFromSlice_singleton, hE.mem_erase_iff]
          rcases ha with ha | ha
          · exact fun hc => hD a ha hc.2
          · simp only [List.mem_singleton] at ha
            subst ha
            exact fun hc => hc.1 rfl))

/-- Every marker accumulated by `pairAcc` is a dead-flag snapshot or one of
the rhs sources. -/
theorem pairAcc_out_mem (op : ItemType) (ls : Source) :
    ∀ (rhs : List Source) (rn : List ℚ) (dead : Bool) (e : Bool ⊕ Source),
      e ∈ (pairAcc op ls rn dead rhs).2.2 →
        (∃ d, e = Sum.inl d) ∨ (∃ rs ∈ rhs, e = Sum.inr rs) := by
  intro rhs
  induction rhs with
  | nil => intro rn dead e he; simp [pairAcc] at he
  | cons rs rest ih =>
    intro rn dead e he
    unfold pairAcc at he
    by_cases h1 : ls.AlwaysReturns && rs.AlwaysReturns
    · rw [if_pos h1] at he
      simp only [List.mem_cons] at he
      rcases he with he | he
      · exact Or.inl ⟨_, he⟩
      · rcases ih _ _ e he with h | ⟨rs1, hrs1, he1⟩
        · exact Or.inl h
        · exact Or.inr ⟨rs1, List.mem_cons_of_mem _ hrs1, he1⟩
    · rw [if_neg h1] at he
      by_cases h2 : (ls.Returns == ValueTypeVector || ls.Returns == ValueTypeMatrix) = true
      · rw [if_pos h2] at he
        simp only [List.mem_cons] at he
        rcases he with he | he
        · exact Or.inl ⟨_, he⟩
        · rcases ih _ _ e he with h | ⟨rs1, hrs1, he1⟩
          · exact Or.inl h
          · exact Or.inr ⟨rs1, List.mem_cons_of_mem _ hrs1, he1⟩
      · rw [if_neg h2] at he
        by_cases h3 : (rs.Returns == ValueTypeVector || rs.Returns == ValueTypeMatrix) = true
        · rw [if_pos h3] at he
          simp only [List.mem_cons] at he
          rcases he with he | he
          · exact Or.inr ⟨rs, List.mem_cons_self _ _, he⟩
          · rcases ih _ _ e he with h | ⟨rs1, hrs1, he1⟩
            · exact Or.inl h
            · exact Or.inr ⟨rs1, List.mem_cons_of_mem _ hrs1, he1⟩
        · rw [if_neg h3] at he
          rcases ih _ _ e he with h | ⟨rs1, hrs1, he1⟩
          · exact Or.inl h
          · exact Or.inr ⟨rs1, List.mem_cons_of_mem _ hrs1, he1⟩

/-- Every source emitted by `emitPairs` is a copy of the lhs source with
only numbers and dead flag changed, or one of the rhs sources. -/
theorem emitPairs_mem (op : ItemType) (ls : Source) (rhs : List Source) (s : Source)
    (hs : s ∈ emitPairs op ls rhs) :
    (∃ rn d, s = { ls with ReturnedNumbers := rn, IsDead := d }) ∨ s ∈ rhs := by
  unfold emitPairs at hs
  obtain ⟨e, he, rfl⟩ := List.mem_map.mp hs
  rcases pairAcc_out_mem op ls rhs _ _ e he with ⟨d, rfl⟩ | ⟨rs, hrs, rfl⟩
  · exact Or.inl ⟨_, d, rfl⟩
  · exact Or.inr hrs

/-- `parseBinOps` preserves the label-list invariant. -/
theorem goodLabels_parseBinOpsFrom (expr : String) (op : ItemType)
    (vm : Option VectorMatching) (lhs rhs : Node) {lhsSrc rhsSrc : List Source}
    (hl : ∀ s ∈ lhsSrc, goodLabels s) (hr : ∀ s ∈ rhsSrc, goodLabels s) :
    ∀ s ∈ parseBinOpsFrom expr op vm lhs rhs lhsSrc rhsSrc, goodLabels s := by
  intro s hs
  match vm with
  | none =>
    simp only [parseBinOpsFrom] at hs
    obtain ⟨ls, hls, hmem⟩ := List.mem_flatMap.mp hs
    rcases emitPairs_mem op ls rhsSrc s hmem with ⟨rn, d, rfl⟩ | hmem2
    · simpa [goodLabels] using hl ls hls
    · exact hr s hmem2
  | some m =>
    match hcard : m.card with
    | .CardOneToOne =>
      simp only [parseBinOpsFrom, hcard] at hs
      obtain ⟨s0, hs0, rfl⟩ := List.mem_map.mp hs
      obtain ⟨hI, hE, hG, hD⟩ := hl s0 hs0
      by_cases hon : m.isOn = true
      · simp only [hon, if_pos, goodLabels]
        refine ⟨nodup_appendToSlice hI _, nodup_removeFromSlice hE _, hG, ?_⟩
        intro a ha hc
        exact hD a ha ((removeFromSlice_sublist _ _).subset hc)
      · simp only [hon, Bool.false_eq_true, if_neg, not_false_iff, goodLabels]
        refine ⟨nodup_removeFromSlice hI _, nodup_appendToSlice hE _,
          nodup_removeFromSlice hG _, ?_⟩
        intro a ha
        rw [mem_removeFromSlice hG] at ha
        rw [mem_appendToSlice]
        push_neg
        exact ⟨hD a ha.1, ha.2⟩
    | .CardOneToMany =>
      simp only [parseBinOpsFrom, hcard] at hs
      obtain ⟨s0, hs0, rfl⟩ := List.mem_map.mp hs
      obtain ⟨hI, hE, hG, hD⟩ := hr s0 hs0
      by_cases hon : m.isOn = true
      · simp only [hon, if_pos, goodLabels]
        refine ⟨nodup_appendToSlice (nodup_appendToSlice hI _) _,
          nodup_removeFromSlice hE _, hG, ?_⟩
        intro a ha hc
        exact hD a ha ((removeFromSlice_sublist _ _).subset hc)
      · simp only [hon, Bool.false_eq_true, if_neg, not_false_iff, goodLabels]
        refine ⟨nodup_appendToSlice hI _, nodup_removeFromSlice hE _, hG, ?_⟩
        intro a ha hc
        exact hD a ha ((removeFromSlice_sublist _ _).subset hc)
    | .CardManyToOne =>
      simp only [parseBinOpsFrom, hcard] at hs
      obtain ⟨s0, hs0, rfl⟩ := List.mem_map.mp hs
      obtain ⟨hI, hE, hG, hD⟩ := hl s0 hs0
      by_cases hon : m.isOn = true
      · simp only [hon, if_pos, goodLabels]
        refine ⟨nodup_appendToSlice (nodup_appendToSlice hI _) _,
          nodup_removeFromSlice hE _, hG, ?_⟩
        intro a ha hc
        exact hD a ha ((removeFromSlice_sublist _ _).subset hc)
      · simp only [hon, Bool.false_eq_true, if_neg, not_false_iff, goodLabels]
        refine ⟨nodup_appendToSlice hI _, nodup_removeFromSlice hE _, hG, ?_⟩
        intro a ha hc
        exact hD a ha ((removeFromSlice_sublist _ _).subset hc)
    | .CardManyToMany =>
      simp only [parseBinOpsFrom, hcard] at hs
      by_cases hop : (op == ItemType.LOR) = true
      · rw [if_pos hop] at hs
        rcases List.mem_append.mp hs with hmem | hmem
        · obtain ⟨s0, hs0, rfl⟩ := List.mem_map.mp hmem
          obtain ⟨hI, hE, hG, hD⟩ := hl s0 hs0
          by_cases hon : m.isOn = true
          · simp only [hon, if_pos, goodLabels]
            exact ⟨nodup_appendToSlice hI _, hE, hG, hD⟩
          · simp only [hon, Bool.false_eq_true, if_neg, not_false_iff, goodLabels]
            exact ⟨hI, hE, hG, hD⟩
        · obtain ⟨s0, hs0, rfl⟩ := List.mem_map.mp hmem
          obtain ⟨hI, hE, hG, hD⟩ := hr s0 hs0
          by_cases hdead : (!lhsSrc.any fun s => !s.AlwaysReturns) = true
          · simp only [hdead, if_pos, goodLabels]
            exact ⟨hI, hE, hG, hD⟩
          · simp only [hdead, Bool.false_eq_true, if_neg, not_false_iff, goodLabels]
            exact ⟨hI, hE, hG, hD⟩
      · rw [if_neg hop] at hs
        obtain ⟨s0, hs0, rfl⟩ := List.mem_map.mp hs
        obtain ⟨hI, hE, hG, hD⟩ := hl s0 hs0
        by_cases hon : m.isOn = true
        · simp only [hon, if_pos, goodLabels]
          exact ⟨nodup_appendToSlice hI _, hE, hG, hD⟩
        · simp only [hon, Bool.false_eq_true, if_neg, not_false_iff, goodLabels]
          exact ⟨hI, hE, hG, hD⟩

/-- The selector source satisfies the label-list invariant. -/
theorem goodLabels_selectorSource (vs : VectorSelector) : goodLabels (selectorSource vs) :=
  ⟨List.nodup_nil, List.nodup_nil, nodup_appendToSlice_nil _, by simp [selectorSource]⟩

/-- Every source the analyzer emits satisfies the label-list invariant
(claims C1 and C10): its three label lists are duplicate-free and no label
is both guaranteed and excluded. -/
theorem walkNode_good (expr : String) : (n : Node) → ∀ s ∈ walkNode expr n, goodLabels s
  | .AggregateExpr op e param grouping without pos => by
    intro s hs
    simp only [walkNode] at hs
    exact goodLabels_walkAggregationFrom expr op param grouping without pos
      (walkNode_good expr e) s hs
  | .BinaryExpr op lhs rhs vm rb => by
    intro s hs
    simp only [walkNode] at hs
    exact goodLabels_parseBinOpsFrom expr op vm lhs rhs
      (walkNode_good expr lhs) (walkNode_good expr rhs) s hs
  | .Call func args pos => by
    intro s hs
    simp only [walkNode, List.mem_singleton] at hs
    subst hs
    exact goodLabels_parseCallFrom expr func args pos _
  | .MatrixSelector v => by
    intro s hs
    simp only [walkNode] at hs
    exact walkNode_good expr v s hs
  | .SubqueryExpr e => by
    intro s hs
    simp only [walkNode] at hs
    exact walkNode_good expr e s hs
  | .NumberLiteral v pos => by
    intro s hs
    simp only [walkNode, List.mem_singleton] at hs
    subst hs
    exact ⟨List.nodup_nil, List.nodup_nil, List.nodup_nil, by simp [numberSource]⟩
  | .ParenExpr e => by
    intro s hs
    simp only [walkNode] at hs
    exact walkNode_good expr e s hs
  | .StringLiteral v pos => by
    intro s hs
    simp only [walkNode, List.mem_singleton] at hs
    subst hs
    exact ⟨List.nodup_nil, List.nodup_nil, List.nodup_nil, by simp [stringSource]⟩
  | .UnaryExpr e => by
    intro s hs
    simp only [walkNode] at hs
    exact walkNode_good expr e s hs
  | .StepInvariantExpr e => by
    intro s hs
    simp only [walkNode] at hs
    exact absurd hs (List.not_mem_nil s)
  | .VectorSelector vs => by
    intro s hs
    simp only [walkNode, List.mem_singleton] at hs
    subst hs
    exact goodLabels_selectorSource vs

/-- Claim C1: for every PromQL expression, every Source emitted by
`LabelsSource` has disjoint `GuaranteedLabels` and `ExcludedLabels` — no
label name appears in both lists of the same Source, across all node
kinds. -/
theorem C1_guaranteed_excluded_disjoint (expr : String) (n : Node) (s : Source)
    (hs : s ∈ LabelsSource expr n) :
    ∀ a ∈ s.GuaranteedLabels, a ∉ s.ExcludedLabels :=
  (walkNode_good expr n s hs).2.2.2

/-- Witness for C1 at the concrete expression `foo{job="x"}`. -/
theorem C1_witness : "job" ∉ (selectorSource selJob).ExcludedLabels :=
  C1_guaranteed_excluded_disjoint "" selJobNode (selectorSource selJob)
    (by rw [show LabelsSource "" selJobNode = [selectorSource selJob] from rfl]
        exact List.mem_singleton_self _)
    "job" (by decide)

/-- Claim C10: for every PromQL expression, every Source emitted by
`LabelsSource` has duplicate-free `IncludedLabels`, `ExcludedLabels` and
`GuaranteedLabels`. -/
theorem C10_label_lists_nodup (expr : String) (n : Node) (s : Source)
    (hs : s ∈ LabelsSource expr n) :
    s.IncludedLabels.Nodup ∧ s.ExcludedLabels.Nodup ∧ s.GuaranteedLabels.Nodup :=
  ⟨(walkNode_good expr n s hs).1, (walkNode_good expr n s hs).2.1,
   (walkNode_good expr n s hs).2.2.1⟩

/-- Witness for C10 at the concrete expression `foo{job="x"}`. -/
theorem C10_witness :
    (selectorSource selJob).IncludedLabels.Nodup ∧
      (selectorSource selJob).ExcludedLabels.Nodup ∧
      (selectorSource selJob).GuaranteedLabels.Nodup :=
  C10_label_lists_nodup "" selJobNode (selectorSource selJob)
    (by rw [show LabelsSource "" selJobNode = [selectorSource selJob] from rfl]
        exact List.mem_singleton_self _)

/-- Claim C7: for every expression X, the sources emitted for `topk(k, X)`
and `bottomk(k, X)` are exactly the sources of X with only the kind changed
to Aggregate and the operation tag set to "topk"/"bottomk"; every other
field is unchanged. -/
theorem C7_topk_bottomk_passthrough (expr : String) (e : Node) (param : Option Node)
    (grouping : List String) (without : Bool) (pos : PosRange) :
    walkNode expr (.AggregateExpr .TOPK e param grouping without pos) =
      (walkNode expr e).map
        (fun s => { s with SrcType := .AggregateSource, Operation := "topk" }) ∧
    walkNode expr (.AggregateExpr .BOTTOMK e param grouping without pos) =
      (walkNode expr e).map
        (fun s => { s with SrcType := .AggregateSource, Operation := "bottomk" }) := by
  constructor <;> simp [walkNode, walkAggregationFrom]

/-- Constant folding of a comparison operator keeps the lhs value and sets
the dead flag exactly when the comparison predicate fails. -/
theorem calculateStaticReturn_comparison (op : ItemType) (h : IsComparisonOperator op = true)
    (lv rv : ℚ) (d : Bool) :
    calculateStaticReturn lv rv op d = (lv, if comparisonHolds op lv rv then d else true) := by
  cases op <;> simp only [IsComparisonOperator, Bool.false_eq_true] at h <;>
    simp only [calculateStaticReturn, comparisonHolds]
  · by_cases hc : lv = rv <;> simp [hc]
  · by_cases hc : lv = rv <;> simp [hc]
  · by_cases hc : lv ≤ rv <;> simp [hc, not_le.symm]
  · by_cases hc : lv < rv <;> simp [hc, not_lt.symm]
  · by_cases hc : rv ≤ lv <;> simp [ge_iff_le, hc]
  · by_cases hc : rv < lv <;> simp [gt_iff_lt, hc]

/-- Claim C6: for a binary expression over two constant-returning operands
with a comparison operator, the emitted source keeps the left-hand value in
`ReturnedNumbers`; when the predicate is false `IsDead` is set, when it is
true `IsDead` is left unchanged. -/
theorem C6_comparison_on_constants (expr : String) (op : ItemType) (lhsN rhsN : Node)
    (rb : Bool) (ls rs : Source) (lv rv : ℚ)
    (hL : walkNode expr lhsN = [ls]) (hR : walkNode expr rhsN = [rs])
    (hla : ls.AlwaysReturns = true) (hra : rs.AlwaysReturns = true)
    (hln : ls.ReturnedNumbers = [lv]) (hrn : rs.ReturnedNumbers = [rv])
    (hop : IsComparisonOperator op = true) :
    walkNode expr (.BinaryExpr op lhsN rhsN none rb) =
      [{ ls with
          ReturnedNumbers := [lv],
          IsDead := if comparisonHolds op lv rv then ls.IsDead else true }] := by
  simp only [walkNode, hL, hR, parseBinOpsFrom, List.flatMap_cons, List.flatMap_nil,
    List.append_nil]
  unfold emitPairs pairAcc
  rw [hla, hra]
  simp only [Bool.and_self, if_pos]
  unfold staticFold
  rw [hln, hrn]
  simp only [List.foldl_cons, List.foldl_nil,
    calculateStaticReturn_comparison op hop lv rv ls.IsDead]
  unfold pairAcc
  simp

/-- Witness for C6 at `1 > 2`: the comparison fails, so the source is
marked dead and keeps the lhs value `1`. -/
theorem C6_witness :
    walkNode "" (.BinaryExpr .GTR (.NumberLiteral 1 ⟨0, 1⟩) (.NumberLiteral 2 ⟨4, 5⟩)
        none true) =
      [{ numberSource "" 1 ⟨0, 1⟩ with ReturnedNumbers := [1], IsDead := true }] := by
  have h := C6_comparison_on_constants "" .GTR (.NumberLiteral 1 ⟨0, 1⟩)
    (.NumberLiteral 2 ⟨4, 5⟩) true (numberSource "" 1 ⟨0, 1⟩) (numberSource "" 2 ⟨4, 5⟩)
    1 2 rfl rfl rfl rfl rfl rfl rfl
  have hc : comparisonHolds .GTR 1 2 = false := by decide
  rw [hc] at h
  simpa using h

/-- Claim C3 (code bug): at the failing input
`sum by(x) (foo{a="1", b="2", c="3"})` the emitted source does set
`FixedLabels` and `IncludedLabels = ["x"]`, but its `GuaranteedLabels` is
`["b"]` — the label `b` is NOT in the grouping `["x"]`, contradicting the
claim that only names in L survive.  The cause is the Go loop that ranges
over `s.GuaranteedLabels` while `removeFromSlice` mutates it in place (see
`filterGuaranteed`): after `a` is removed the loop reads the shifted element
`c` instead of `b`, removes `c`, then reads the zeroed tail cell, so `b` is
never examined. -/
theorem C3_by_aggregation_bug :
    (LabelsSource "" c3Node).length = 1 ∧
      ((LabelsSource "" c3Node).headD default).FixedLabels = true ∧
      ((LabelsSource "" c3Node).headD default).IncludedLabels = ["x"] ∧
      ((LabelsSource "" c3Node).headD default).GuaranteedLabels = ["b"] ∧
      "b" ∉ (["x"] : List String) :=
  ⟨by decide, by decide, by decide, by decide, by decide⟩

/-- The name stream the Go code feeds into `appendToSlice`/`nameCount`
coincides with the spec-side positive-matcher name list. -/
theorem specPositiveNames_eq (sels : List VectorSelector) :
    sels.flatMap (selectorMatchNames guaranteedLabelsMatches) = specPositiveNames sels := by
  unfold specPositiveNames selectorMatchNames
  congr 1
  funext sel
  congr 1
  apply List.filter_congr
  intro lm _
  cases hm : lm.mtype <;> simp [hm, guaranteedLabelsMatches]

/-- Claim C2 (amended): for every call to a label-preserving transform
function the emitted Source has `Returns = vector`, and a label name is
guaranteed exactly when it occurs among the positive (Equal or Regex)
matcher names of the call's selectors AND its total positive-matcher count
equals the number of selectors (the Go code is not a plain union: a name
whose matcher count differs from the selector count is dropped again). -/
theorem C2_transform_guaranteed (expr : String) (func : PromFunction) (args : List Node)
    (pos : PosRange) (h : func.name ∈ labelPreservingNames) :
    ∃ s, walkNode expr (.Call func args pos) = [s] ∧ s.Returns = ValueTypeVector ∧
      ∀ a, a ∈ s.GuaranteedLabels ↔
        a ∈ specPositiveNames s.Selectors ∧
          (specPositiveNames s.Selectors).count a = s.Selectors.length := by
  refine ⟨parseCallFrom expr func args pos (walkList expr args), by simp [walkNode], ?_, ?_⟩
  · unfold parseCallFrom
    rw [if_pos (by simpa using h)]
  · unfold parseCallFrom
    rw [if_pos (by simpa using h)]
    intro a
    simp only
    rw [mem_appendToSlice]
    simp only [List.not_mem_nil, false_or]
    rw [mem_labelsFromSelectors, specPositiveNames_eq]

/-- Witness for C2 at the concrete call `rate(foo{job="x"}[5m])`. -/
theorem C2_witness :
    rateFunc.name ∈ labelPreservingNames ∧
      ∃ s, walkNode "" c2WitNode = [s] ∧ s.Returns = ValueTypeVector ∧
        ∀ a, a ∈ s.GuaranteedLabels ↔
          a ∈ specPositiveNames s.Selectors ∧
            (specPositiveNames s.Selectors).count a = s.Selectors.length :=
  ⟨by decide,
   C2_transform_guaranteed "" rateFunc [.MatrixSelector selJobNode] ⟨0, 14⟩ (by decide)⟩

/-- Counterexample to C2 as stated: in `rate(foo{a="1", a=~"x"}[5m])` the
label `a` belongs to the union of positive-matcher names of the call's
selectors, yet it is not guaranteed (its two positive matchers make the
count 2 ≠ 1 selector, so the code removes it). -/
theorem C2_counterexample :
    (LabelsSource "" c2CexNode).length = 1 ∧
      "a" ∈ specPositiveNames ((LabelsSource "" c2CexNode).headD default).Selectors ∧
      "a" ∉ ((LabelsSource "" c2CexNode).headD default).GuaranteedLabels :=
  ⟨by decide, by decide, by decide⟩

/-! ### The alerts-comparison claims -/

/-- `rewriteSeverity` over the two operand nodes escalates exactly when one
of them is itself a `vector(...)` call. -/
theorem rewriteSeverity_pair (s : Severity) (l r : Node) :
    rewriteSeverity s [l, r] =
      if (isVectorCall l || isVectorCall r) = true then Severity.Bug else s := by
  unfold rewriteSeverity isVectorCall
  simp only [List.any_cons, List.any_nil, Bool.or_false]

/-- Claim C9: the comparison check returns no problems for rules that are
not alerting rules and for rules whose expression carries a syntax error. -/
theorem C9_skips_nonalerting_and_syntax_errors (rule : Rule)
    (h : rule.alertingRule = none ∨
      ∃ ar err, rule.alertingRule = some ar ∧ ar.expr.syntaxError = some err) :
    comparisonCheck rule = [] := by
  rcases h with h | ⟨ar, err, har, herr⟩
  · simp [comparisonCheck, h]
  · simp [comparisonCheck, har, herr]

/-- Witness for C9 at a rule with a syntax error. -/
theorem C9_witness : comparisonCheck c9SyntaxErrorRule = [] :=
  C9_skips_nonalerting_and_syntax_errors c9SyntaxErrorRule
    (Or.inr ⟨_, "unexpected end of input", rfl, rfl⟩)

/-- Claim C4 (amended): for every alerting rule whose expression parses and
whose outermost binary operator (skipping parens and unary) is `or`, the
check emits the "will always fire" warning exactly when at least one side
contains no comparison and no `unless` operator and neither side contains an
`absent(...)` call (NOT `absent_over_time`, which the code does not treat as
absent); the problem's severity is Bug when either side is itself a
`vector(n)` call and Warning otherwise. -/
theorem C4_or_always_firing (rule : Rule) (ar : AlertingRule) (b : BinaryInfo)
    (h1 : rule.alertingRule = some ar) (h2 : ar.expr.syntaxError = none)
    (h3 : hasOuterBinaryExpr ar.expr.query = some b) (h4 : b.op = .LOR) :
    (comparisonCheck rule).filter (fun p => p.text == orText) =
      (if (((hasComparision b.lhs).isNone || (hasComparision b.rhs).isNone) &&
            !isAbsent b.lhs && !isAbsent b.rhs) = true then
        [{ fragment := ar.expr.value, lines := ar.expr.lines,
           reporter := comparisonCheckName, text := orText,
           severity := if (isVectorCall b.lhs || isVectorCall b.rhs) = true
             then Severity.Bug else Severity.Warning }]
      else []) := by
  have htext1 : (boolText == orText) = false := by decide
  have htext2 : (noCondText == orText) = false := by decide
  simp only [comparisonCheck, h1, h2, h3, h4, beq_self_eq_true, Bool.true_and]
  cases hq : hasComparision ar.expr.query.node with
  | some b2 =>
    by_cases hC : (((hasComparision b.lhs).isNone || (hasComparision b.rhs).isNone) &&
        !isAbsent b.lhs && !isAbsent b.rhs) = true <;>
      by_cases hB : (b2.returnBool && (hasComparision b2.lhs).isNone &&
          (hasComparision b2.rhs).isNone) = true <;>
        simp [hq, hC, hB, List.filter_append, htext1, rewriteSeverity_pair]
  | none =>
    by_cases hC : (((hasComparision b.lhs).isNone || (hasComparision b.rhs).isNone) &&
        !isAbsent b.lhs && !isAbsent b.rhs) = true <;>
      by_cases hA : hasAbsent ar.expr.query = true <;>
        simp [hq, hC, hA, List.filter_append, htext2, rewriteSeverity_pair]

/-- Witness for C4 at `up or vector(1)`: the rhs always returns and is a
`vector(n)` call, so the warning fires with severity escalated to Bug. -/
theorem C4_witness :
    (comparisonCheck (mkAlertRule c4WitNode)).filter (fun p => p.text == orText) =
      [{ fragment := "expr", lines := ⟨1, 1⟩, reporter := comparisonCheckName,
         text := orText, severity := Severity.Bug }] := by
  have h := C4_or_always_firing (mkAlertRule c4WitNode)
    ⟨⟨"expr", ⟨1, 1⟩, none, PromQLNode.mk c4WitNode []⟩⟩
    ⟨.LOR, c4WitLhs, c4WitRhs, some orMatching, false⟩
    rfl rfl rfl rfl
  rw [h]
  decide

/-- Counterexample to C4 as stated: in `foo or absent_over_time(bar[5m])`
the right side counts as absent by the claim's notion (any descendant
`absent` or `absent_over_time` call), so the claim predicts no warning; yet
the check, whose `isAbsent` matches only `absent`, emits the "will always
fire" warning. -/
theorem C4_counterexample :
    isAbsentClaimed c4CexRhs = true ∧
      (comparisonCheck (mkAlertRule c4CexNode)).filter (fun p => p.text == orText) =
        [{ fragment := "expr", lines := ⟨1, 1⟩, reporter := comparisonCheckName,
           text := orText, severity := Severity.Warning }] :=
  ⟨by decide, by decide⟩

/-- Claim C5 (amended): for every alerting rule whose expression parses, if
the FIRST descendant binary whose operator is a comparison or `unless`
(pre-order: a binary node itself first, then its children left to right)
carries the `bool` modifier and neither of its operands contains another
comparison, the check emits the bool-modifier Bug problem. -/
theorem C5_bool_modifier_bug (rule : Rule) (ar : AlertingRule) (b : BinaryInfo)
    (h1 : rule.alertingRule = some ar) (h2 : ar.expr.syntaxError = none)
    (h3 : hasComparision ar.expr.query.node = some b)
    (h4 : b.returnBool = true) (h5 : hasComparision b.lhs = none)
    (h6 : hasComparision b.rhs = none) :
    { fragment := ar.expr.value, lines := ar.expr.lines, reporter := comparisonCheckName,
      text := boolText, severity := Severity.Bug } ∈ comparisonCheck rule := by
  simp only [comparisonCheck, h1, h2, h3, h4, h5, h6, Option.isNone_none, Bool.and_self,
    if_pos]
  exact List.mem_append_right _ (List.mem_singleton_self _)

/-- Witness for C5 at `up == bool 0` (spec scenario 7). -/
theorem C5_witness :
    { fragment := "expr", lines := (⟨1, 1⟩ : LineRange), reporter := comparisonCheckName,
      text := boolText, severity := Severity.Bug } ∈
      comparisonCheck (mkAlertRule c5WitNode) :=
  C5_bool_modifier_bug (mkAlertRule c5WitNode)
    ⟨⟨"expr", ⟨1, 1⟩, none, PromQLNode.mk c5WitNode []⟩⟩
    ⟨.EQLC, c5WitLhs, c5WitRhs, none, true⟩
    rfl rfl rfl rfl rfl rfl

/-- Counterexample to C5 as stated: in `(a == b) and (c == bool 0)` a
descendant comparison (`c == bool 0`) carries `bool` with comparison-free
operands, so the claim demands a Bug problem; but the check inspects only
the first comparison found (`a == b`, no `bool`) and returns no problems at
all. -/
theorem C5_counterexample :
    hasBoolComparisionClaimed c5CexNode = true ∧
      comparisonCheck (mkAlertRule c5CexNode) = [] :=
  ⟨by decide, by decide⟩

/-! ### Claim C8: non-empty analysis for well-typed expressions -/

/-- Every supported function lands in one of the non-default `parseCall`
branches, all of which return vector or scalar-and-always-returns
sources. -/
theorem goodReturns_parseCallFrom (expr : String) (func : PromFunction) (args : List Node)
    (pos : PosRange) (argSrcs : List (List Source))
    (h : supportedFunctionNames.contains func.name = true) :
    goodReturns (parseCallFrom expr func args pos argSrcs) := by
  unfold parseCallFrom goodReturns
  split
  · right; left; rfl
  · split
    · right; left; rfl
    · split
      · split
        · left; rfl
        · right; left; rfl
      · split
        · right; left; rfl
        · split
          · left; rfl
          · split
            · right; left; rfl
            · split
              · split <;> (left; rfl)
              · exfalso
                simp only [supportedFunctionNames, List.elem_eq_mem, List.mem_append,
                  decide_eq_true_eq] at h
                simp_all [List.elem_eq_mem]

/-- Every `parseAggregation` output returns a vector. -/
theorem goodReturns_parseAggregationFrom (expr : String) (grouping : List String)
    (without : Bool) (pos : PosRange) (inner : List Source) :
    ∀ s ∈ parseAggregationFrom expr grouping without pos inner, goodReturns s := by
  intro s hs
  obtain ⟨s0, _, rfl⟩ := List.mem_map.mp hs
  right; left; rfl

/-- `walkAggregation` with an aggregation operator emits one source per
inner source, each of which returns a vector or passes the inner source's
returns through (`topk`/`bottomk`). -/
theorem wf_walkAggregationFrom (expr : String) (op : ItemType) (param : Option Node)
    (grouping : List String) (without : Bool) (pos : PosRange) {inner : List Source}
    (hop : isAggregationOp op = true) (hne : inner ≠ [])
    (hg : ∀ s ∈ inner, goodReturns s) :
    walkAggregationFrom expr op param grouping without pos inner ≠ [] ∧
      ∀ s ∈ walkAggregationFrom expr op param grouping without pos inner, goodReturns s := by
  have hmapne : parseAggregationFrom expr grouping without pos inner ≠ [] := by
    unfold parseAggregationFrom
    simpa using hne
  have hgr := goodReturns_parseAggregationFrom expr grouping without pos inner
  cases op <;> simp only [isAggregationOp, Bool.false_eq_true] at hop <;>
    constructor <;>
    simp only [walkAggregationFrom] <;>
    first
    | simpa using hmapne
    | simpa using hne
    | (intro s hs
       obtain ⟨s1, hs1, rfl⟩ := List.mem_map.mp hs
       first
       | simpa [goodReturns] using hgr s1 hs1
       | simpa [goodReturns] using hg s1 hs1)

/-- Whenever the lhs and the first rhs source satisfy the returns invariant,
the first iteration of the pairing loop emits at least one source. -/
theorem emitPairs_ne_nil (op : ItemType) (ls : Source) {rhs : List Source}
    (hrne : rhs ≠ []) (hl : goodReturns ls) (hr : ∀ s ∈ rhs, goodReturns s) :
    emitPairs op ls rhs ≠ [] := by
  match rhs, hrne with
  | r0 :: rest, _ =>
    unfold emitPairs pairAcc
    by_cases h1 : (ls.AlwaysReturns && r0.AlwaysReturns) = true
    · rw [if_pos h1]
      simp
    · rw [if_neg h1]
      by_cases h2 : (ls.Returns == ValueTypeVector || ls.Returns == ValueTypeMatrix) = true
      · rw [if_pos h2]
        simp
      · rw [if_neg h2]
        have h3 : (r0.Returns == ValueTypeVector || r0.Returns == ValueTypeMatrix) = true := by
          have hlsA : ls.AlwaysReturns = true := by
            rcases hl with h | h | h
            · exact h
            · exact absurd (by simp [h]) h2
            · exact absurd (by simp [h]) h2
          have hr0A : r0.AlwaysReturns = false := by
            by_contra hc
            simp only [Bool.not_eq_false] at hc
            exact h1 (by simp [hlsA, hc])
          rcases hr r0 (List.mem_cons_self _ _) with h | h | h
          · exact absurd h (by simp [hr0A])
          · simp [h]
          · simp [h]
        rw [if_pos h3]
        simp

/-- Every source emitted by `emitPairs` inherits the returns invariant. -/
theorem goodReturns_emitPairs (op : ItemType) (ls : Source) (rhs : List Source)
    (hl : goodReturns ls) (hr : ∀ s ∈ rhs, goodReturns s) :
    ∀ s ∈ emitPairs op ls rhs, goodReturns s := by
  intro s hs
  rcases emitPairs_mem op ls rhs s hs with ⟨rn, d, rfl⟩ | hmem
  · rcases hl with h | h | h
    · exact Or.inl h
    · exact Or.inr (Or.inl h)
    · exact Or.inr (Or.inr h)
  · exact hr s hmem

/-- `parseBinOps` over non-empty source lists satisfying the returns
invariant emits at least one source, all satisfying the invariant. -/
theorem wf_parseBinOpsFrom (expr : String) (op : ItemType) (vm : Option VectorMatching)
    (lhs rhs : Node) {lhsSrc rhsSrc : List Source}
    (hlne : lhsSrc ≠ []) (hrne : rhsSrc ≠ [])
    (hl : ∀ s ∈ lhsSrc, goodReturns s) (hr : ∀ s ∈ rhsSrc, goodReturns s) :
    parseBinOpsFrom expr op vm lhs rhs lhsSrc rhsSrc ≠ [] ∧
      ∀ s ∈ parseBinOpsFrom expr op vm lhs rhs lhsSrc rhsSrc, goodReturns s := by
  match vm with
  | none =>
    constructor
    · match lhsSrc, hlne with
      | l0 :: ltl, _ =>
        simp only [parseBinOpsFrom, List.flatMap_cons]
        intro hc
        rcases List.append_eq_nil.mp hc with ⟨hc1, _⟩
        exact emitPairs_ne_nil op l0 hrne (hl l0 (List.mem_cons_self _ _)) hr hc1
    · intro s hs
      simp only [parseBinOpsFrom] at hs
      obtain ⟨ls, hls, hmem⟩ := List.mem_flatMap.mp hs
      exact goodReturns_emitPairs op ls rhsSrc (hl ls hls) hr s hmem
  | some m =>
    match hcard : m.card with
    | .CardOneToOne =>
      constructor
      · simp only [parseBinOpsFrom, hcard, ne_eq, List.map_eq_nil_iff]
        exact hlne
      · intro s hs
        simp only [parseBinOpsFrom, hcard] at hs
        obtain ⟨s0, hs0, rfl⟩ := List.mem_map.mp hs
        have := hl s0 hs0
        by_cases hon : m.isOn = true <;>
          simpa [goodReturns, hon] using this
    | .CardOneToMany =>
      constructor
      · simp only [parseBinOpsFrom, hcard, ne_eq, List.map_eq_nil_iff]
        exact hrne
      · intro s hs
        simp only [parseBinOpsFrom, hcard] at hs
        obtain ⟨s0, hs0, rfl⟩ := List.mem_map.mp hs
        have := hr s0 hs0
        by_cases hon : m.isOn = true <;>
          simpa [goodReturns, hon] using this
    | .CardManyToOne =>
      constructor
      · simp only [parseBinOpsFrom, hcard, ne_eq, List.map_eq_nil_iff]
        exact hlne
      · intro s hs
        simp only [parseBinOpsFrom, hcard] at hs
        obtain ⟨s0, hs0, rfl⟩ := List.mem_map.mp hs
        have := hl s0 hs0
        by_cases hon : m.isOn = true <;>
          simpa [goodReturns, hon] using this
    | .CardManyToMany =>
      constructor
      · by_cases hop : (op == ItemType.LOR) = true <;>
          simp [parseBinOpsFrom, hcard, hop, hlne]
      · intro s hs
        simp only [parseBinOpsFrom, hcard] at hs
        by_cases hop : (op == ItemType.LOR) = true
        · rw [if_pos hop] at hs
          rcases List.mem_append.mp hs with hmem | hmem
          · obtain ⟨s0, hs0, rfl⟩ := List.mem_map.mp hmem
            have := hl s0 hs0
            by_cases hon : m.isOn = true <;>
              simpa [goodReturns, hon] using this
          · obtain ⟨s0, hs0, rfl⟩ := List.mem_map.mp hmem
            have := hr s0 hs0
            by_cases hdead : (!lhsSrc.any fun s => !s.AlwaysReturns) = true <;>
              simpa [goodReturns, hdead] using this
        · rw [if_neg hop] at hs
          obtain ⟨s0, hs0, rfl⟩ := List.mem_map.mp hs
          have := hl s0 hs0
          by_cases hon : m.isOn = true <;>
            simpa [goodReturns, hon] using this

/-- For every well-typed (parser-producible) node the analyzer emits at
least one source, and every emitted source always returns or returns a
vector or matrix. -/
theorem walkNode_wf (expr : String) : (n : Node) → Wf n = true →
    walkNode expr n ≠ [] ∧ ∀ s ∈ walkNode expr n, goodReturns s
  | .AggregateExpr op e param grouping without pos => by
    intro h
    simp only [Wf, Bool.and_eq_true] at h
    have ih := walkNode_wf expr e h.2
    simp only [walkNode]
    exact wf_walkAggregationFrom expr op param grouping without pos h.1 ih.1 ih.2
  | .BinaryExpr op lhs rhs vm rb => by
    intro h
    simp only [Wf, Bool.and_eq_true] at h
    have ihl := walkNode_wf expr lhs h.1
    have ihr := walkNode_wf expr rhs h.2
    simp only [walkNode]
    exact wf_parseBinOpsFrom expr op vm lhs rhs ihl.1 ihr.1 ihl.2 ihr.2
  | .Call func args pos => by
    intro h
    simp only [Wf] at h
    refine ⟨by simp [walkNode], ?_⟩
    intro s hs
    simp only [walkNode, List.mem_singleton] at hs
    subst hs
    exact goodReturns_parseCallFrom expr func args pos _ h
  | .MatrixSelector v => by
    intro h
    simp only [Wf] at h
    simpa only [walkNode] using walkNode_wf expr v h
  | .SubqueryExpr e => by
    intro h
    simp only [Wf] at h
    simpa only [walkNode] using walkNode_wf expr e h
  | .NumberLiteral v pos => by
    intro _
    refine ⟨by simp [walkNode], ?_⟩
    intro s hs
    simp only [walkNode, List.mem_singleton] at hs
    subst hs
    exact Or.inl rfl
  | .ParenExpr e => by
    intro h
    simp only [Wf] at h
    simpa only [walkNode] using walkNode_wf expr e h
  | .StringLiteral v pos => by
    intro _
    refine ⟨by simp [walkNode], ?_⟩
    intro s hs
    simp only [walkNode, List.mem_singleton] at hs
    subst hs
    exact Or.inl rfl
  | .UnaryExpr e => by
    intro h
    simp only [Wf] at h
    simpa only [walkNode] using walkNode_wf expr e h
  | .StepInvariantExpr e => by
    intro h
    simp only [Wf] at h
    exact absurd h (by simp)
  | .VectorSelector vs => by
    intro _
    refine ⟨by simp [walkNode], ?_⟩
    intro s hs
    simp only [walkNode, List.mem_singleton] at hs
    subst hs
    exact Or.inr (Or.inl rfl)

/-- Claim C8: for every well-typed (parser-producible) PromQL expression,
`LabelsSource` returns a non-empty list of sources. -/
theorem C8_labels_source_nonempty (expr : String) (n : Node) (h : Wf n = true) :
    LabelsSource expr n ≠ [] :=
  (walkNode_wf expr n h).1

/-- Witness for C8 at the well-typed expression
`sum by(x) (foo{a="1", b="2", c="3"})`. -/
theorem C8_witness : Wf c3Node = true ∧ LabelsSource "" c3Node ≠ [] :=
  ⟨by decide, C8_labels_source_nonempty "" c3Node (by decide)⟩
